import Mathlib

/-!
Throttle command pipeline of the stm32-sine inverter firmware.

Shallow embedding of `src/project/throttle.cpp` (class `Throttle`) over mathematical
integers, followed by the properties proved about it.

* C `int` / `s32fp` values are `Int`; no wrap-around is modelled.
* C integer division truncates towards zero: `Int.tdiv`.  A division whose divisor is zero
  is undefined in C; functions that divide by a calibration value return `Option`, and
  `none` stands for that undefined division.
* A function writing through a pointer or reference returns the written value next to its
  C return value.
-/

/-! ## Macros of `my_math.h` and `my_fp.h` -/

/-- Modelled from the spec: `my_math.h` is not among the sources; `MIN(a,b)` is the usual
two-argument minimum macro `((a) < (b) ? (a) : (b))`. -/
def MIN (a b : Int) : Int := if a < b then a else b

/-- Modelled from the spec: `my_math.h` is not among the sources; `MAX(a,b)` is the usual
two-argument maximum macro `((a) > (b) ? (a) : (b))`. -/
def MAX (a b : Int) : Int := if a > b then a else b

/-- Modelled from the spec: `my_math.h` is not among the sources; `ABS(a)` is the usual
absolute-value macro `((a) < 0 ? -(a) : (a))`. -/
def ABS (a : Int) : Int := if a < 0 then -a else a

/-- Modelled from the spec: `my_fp.h` is not among the sources; the fixed-point type has a
defined binary scale, and `FP_FROMINT(a)` is `a << FRAC_DIGITS`.  The number of fraction
digits `fd` is a parameter (the firmware library uses 5). -/
def FP_FROMINT (fd : Nat) (a : Int) : Int := a * 2 ^ fd

/-- Modelled from the spec: `my_fp.h` is not among the sources; `FP_MUL(a,b)` is the
fixed-point product with explicit rescale, `((a) * (b)) >> FRAC_DIGITS` (arithmetic shift). -/
def FP_MUL (fd : Nat) (a b : Int) : Int := (a * b) >>> fd

/-- C integer division: truncation towards zero, undefined (`none`) for a zero divisor. -/
def cdiv (a b : Int) : Option Int := if b = 0 then none else some (Int.tdiv a b)

/-- Constant `#define POT_SLACK 200` (throttle.cpp). -/
def POT_SLACK : Int := 200

/-- Constant `#define TMPHS_MAX FP_FROMINT(85)` (throttle.h). -/
def TMPHS_MAX (fd : Nat) : Int := FP_FROMINT fd 85

/-! ## Static parameters of class `Throttle` -/

/-- The static members of class `Throttle` that the embedded functions read. -/
structure Throttle where
  potmin : Fin 2 → Int
  potmax : Fin 2 → Int
  brknom : Int
  brknompedal : Int
  brkmax : Int
  bmslimhigh : Int
  bmslimlow : Int
  udcmin : Int
  udcmax : Int
  idcmin : Int
  idcmax : Int
  iacmax : Int
  iackp : Int

namespace Throttle

/-- Embedding of `bool Throttle::CheckAndLimitRange(int* potval, int potIdx)`: the C return value and the
value left in `*potval`. -/
def CheckAndLimitRange (t : Throttle) (potval : Int) (potIdx : Fin 2) : Bool × Int :=
  let potMin := if t.potmax potIdx > t.potmin potIdx then t.potmin potIdx else t.potmax potIdx
  let potMax := if t.potmax potIdx > t.potmin potIdx then t.potmax potIdx else t.potmin potIdx
  if potval + POT_SLACK < potMin ∨ potval > potMax + POT_SLACK then
    (false, potMin)
  else if potval < potMin then
    (true, potMin)
  else if potval > potMax then
    (true, potMax)
  else
    (true, potval)

/-- Embedding of `bool Throttle::CheckDualThrottle(int* potval, int pot2val)`: the C return value and the
value left in `*potval`; `none` when a calibration span used as divisor is zero. -/
def CheckDualThrottle (t : Throttle) (potval pot2val : Int) : Option (Bool × Int) := do
  let potnom2 ←
    if t.potmin 1 > t.potmax 1 then
      (cdiv (100 * (pot2val - t.potmax 1)) (t.potmin 1 - t.potmax 1)).map (fun q => 100 - q)
    else
      cdiv (100 * (pot2val - t.potmin 1)) (t.potmax 1 - t.potmin 1)
  let potnom1 ← cdiv (100 * (potval - t.potmin 0)) (t.potmax 0 - t.potmin 0)
  let diff := potnom2 - potnom1
  let diff := ABS diff
  if diff > 10 then
    pure (false, t.potmin 0)
  else
    pure (true, potval)

/-- Embedding of `s32fp Throttle::CalcThrottle(int potval, int pot2val, bool brkpedal)`; `none` when a
division by zero is executed. -/
def CalcThrottle (fd : Nat) (t : Throttle) (potval pot2val : Int) (brkpedal : Bool) :
    Option Int := do
  let scaledBrkMax := if brkpedal then t.brknompedal else t.brkmax
  let scaledBrkMax ←
    if pot2val > t.potmin 1 then do
      let potnom ← cdiv (100 * (pot2val - t.potmin 1)) (t.potmax 1 - t.potmin 1)
      pure (-1 + Int.tdiv (scaledBrkMax * potnom) 100)
    else
      pure scaledBrkMax
  let potnom := FP_FROMINT fd (potval - t.potmin 0)
  let potnom ← cdiv ((100 + t.brknom) * potnom) (t.potmax 0 - t.potmin 0)
  let potnom := potnom - FP_FROMINT fd t.brknom
  let scaledBrkMax ←
    if potnom < 0 then cdiv (-(potnom * scaledBrkMax)) t.brknom else pure scaledBrkMax
  if brkpedal ∨ potnom < 0 then
    pure scaledBrkMax
  else
    pure potnom

/-- The local `limit` of `Throttle::TemperatureDerate`. -/
def TemperatureDerate.limit (fd : Nat) (tmphs : Int) : Int :=
  if tmphs ≤ TMPHS_MAX fd then FP_FROMINT fd 100
  else if tmphs < TMPHS_MAX fd + FP_FROMINT fd 2 then FP_FROMINT fd 50
  else 0

/-- Embedding of `bool Throttle::TemperatureDerate(s32fp tmphs, s32fp& finalSpnt)`: the C return value and
the value left in `finalSpnt`. -/
def TemperatureDerate (fd : Nat) (tmphs finalSpnt : Int) : Bool × Int :=
  let limit := TemperatureDerate.limit fd tmphs
  let finalSpnt := if finalSpnt ≥ 0 then MIN finalSpnt limit else MAX finalSpnt (-limit)
  (decide (limit < 100), finalSpnt)

/-- Embedding of `void Throttle::BmsLimitCommand(s32fp& finalSpnt, bool dinbms)`: the value left in
`finalSpnt`. -/
def BmsLimitCommand (t : Throttle) (finalSpnt : Int) (dinbms : Bool) : Int :=
  if dinbms then
    if finalSpnt ≥ 0 then Int.tdiv (finalSpnt * t.bmslimhigh) 100
    else Int.tdiv (-(finalSpnt * t.bmslimlow)) 100
  else finalSpnt

/-- Embedding of `void Throttle::UdcLimitCommand(s32fp& finalSpnt, s32fp udc)`: the value left in
`finalSpnt`. -/
def UdcLimitCommand (t : Throttle) (finalSpnt udc : Int) : Int :=
  if finalSpnt ≥ 0 then
    let udcErr := udc - t.udcmin
    let res := udcErr * 5
    let res := MAX 0 res
    MIN finalSpnt res
  else
    let udcErr := udc - t.udcmax
    let res := udcErr * 5
    let res := MIN 0 res
    MAX finalSpnt res

/-- Embedding of `void Throttle::IdcLimitCommand(s32fp& finalSpnt, s32fp idc)`: the value left in
`finalSpnt`. -/
def IdcLimitCommand (t : Throttle) (finalSpnt idc : Int) : Int :=
  if finalSpnt ≥ 0 then
    let idcerr := t.idcmax - idc
    let res := idcerr * 10
    let res := MAX 0 res
    MIN res finalSpnt
  else
    let idcerr := t.idcmin - idc
    let res := idcerr * 10
    let res := MIN 0 res
    MAX res finalSpnt

/-- Embedding of `void Throttle::IacLimitCommand(s32fp& finalSpnt, s32fp iac)`: the value left in
`finalSpnt`. -/
def IacLimitCommand (fd : Nat) (t : Throttle) (finalSpnt iac : Int) : Int :=
  let iacspnt := Int.tdiv (FP_MUL fd t.iacmax finalSpnt) 100
  let iacerr := iacspnt - iac
  let res := FP_MUL fd iacerr t.iackp
  if finalSpnt ≥ 0 then
    let res := MAX 0 res
    MIN res finalSpnt
  else
    let res := MIN 0 res
    MAX res finalSpnt

end Throttle

/-! ## Concrete parameter sets used as test points -/

/-- Calibration `potmin = {100, 0}`, `potmax = {900, 1000}` with typical limiter settings. -/
def calib100_900 : Throttle :=
  { potmin := fun i => if i = 0 then 100 else 0
    potmax := fun i => if i = 0 then 900 else 1000
    brknom := 30, brknompedal := -60, brkmax := -30
    bmslimhigh := 50, bmslimlow := -50
    udcmin := 0, udcmax := 0, idcmin := 0, idcmax := 0, iacmax := 0, iackp := 0 }

/-! ## Arithmetic helpers -/

theorem MIN_eq_min (a b : Int) : MIN a b = min a b := by
  unfold MIN; split <;> omega

theorem MAX_eq_max (a b : Int) : MAX a b = max a b := by
  unfold MAX; split <;> omega

theorem ABS_eq_abs (a : Int) : ABS a = |a| := by
  unfold ABS; split
  · rw [abs_of_neg (by assumption)]
  · rw [abs_of_nonneg (by omega)]

theorem FP_FROMINT_nonneg (fd : Nat) {a : Int} (h : 0 ≤ a) : 0 ≤ FP_FROMINT fd a := by
  unfold FP_FROMINT; positivity

theorem tdiv_nonpos_of_nonpos {a b : Int} (ha : a ≤ 0) (hb : 0 ≤ b) : Int.tdiv a b ≤ 0 := by
  have h := Int.tdiv_nonneg (a := -a) (b := b) (by omega) hb
  rw [Int.neg_tdiv] at h; omega

theorem tdiv_hundred_of_nonneg {x : Int} (h : 0 ≤ x) : Int.tdiv x 100 = x / 100 :=
  Int.tdiv_eq_ediv h (by decide)

theorem tdiv_hundred_of_nonpos {x : Int} (h : x ≤ 0) : Int.tdiv x 100 = -((-x) / 100) := by
  have h1 : Int.tdiv (-(-x)) 100 = -(Int.tdiv (-x) 100) := Int.neg_tdiv (-x) 100
  rw [neg_neg] at h1
  rw [h1, tdiv_hundred_of_nonneg (by omega)]

theorem tdiv_of_neg {a c : Int} (ha : a ≤ 0) (hc : 0 < c) : Int.tdiv a c = -((-a) / c) := by
  have h1 : Int.tdiv (-(-a)) c = -(Int.tdiv (-a) c) := Int.neg_tdiv (-a) c
  rw [neg_neg] at h1
  rw [h1, Int.tdiv_eq_ediv (by omega) hc.le]

theorem tdiv_mono {a b c : Int} (hc : 0 < c) (h : a ≤ b) : Int.tdiv a c ≤ Int.tdiv b c := by
  rcases le_or_lt 0 a with ha | ha
  · rw [Int.tdiv_eq_ediv ha hc.le, Int.tdiv_eq_ediv (le_trans ha h) hc.le]
    exact Int.ediv_le_ediv hc h
  · rcases le_or_lt 0 b with hb | hb
    · exact le_trans (tdiv_nonpos_of_nonpos ha.le hc.le) (Int.tdiv_nonneg hb hc.le)
    · rw [tdiv_of_neg ha.le hc, tdiv_of_neg hb.le hc]
      have := Int.ediv_le_ediv hc (by omega : -b ≤ -a)
      omega

theorem cdiv_of_ne {a b : Int} (h : b ≠ 0) : cdiv a b = some (Int.tdiv a b) := by
  simp [cdiv, h]

/-! ## Range validation -/

namespace Throttle

/-- C1: `CheckAndLimitRange` with `potMin = min(potmin[idx], potmax[idx])`,
`potMax = max(potmin[idx], potmax[idx])` and slack 200 returns true iff
`potMin - 200 ≤ p ≤ potMax + 200`; on true the stored value is `p` clamped into
`[potMin, potMax]`, on false it is exactly `potMin`; in every case the stored value lies in
`[potMin, potMax]`. -/
theorem checkAndLimitRange_contract (t : Throttle) (p : Int) (idx : Fin 2) :
    ((t.CheckAndLimitRange p idx).1 = true ↔
        min (t.potmin idx) (t.potmax idx) - 200 ≤ p ∧
          p ≤ max (t.potmin idx) (t.potmax idx) + 200) ∧
    ((t.CheckAndLimitRange p idx).1 = true →
        (t.CheckAndLimitRange p idx).2 =
          max (min (t.potmin idx) (t.potmax idx))
            (min p (max (t.potmin idx) (t.potmax idx)))) ∧
    ((t.CheckAndLimitRange p idx).1 = false →
        (t.CheckAndLimitRange p idx).2 = min (t.potmin idx) (t.potmax idx)) ∧
    min (t.potmin idx) (t.potmax idx) ≤ (t.CheckAndLimitRange p idx).2 ∧
    (t.CheckAndLimitRange p idx).2 ≤ max (t.potmin idx) (t.potmax idx) := by
  simp only [CheckAndLimitRange, POT_SLACK]
  split_ifs <;> simp <;> omega

/-- C2 (as stated, refuted): with `potmin[0] = 100`, `potmax[0] = 900` the three readings
50, 950, 1200 do not yield (100, false), (900, true), (100, false): the reading 50 lies
inside the slack band and is reported valid. -/
theorem checkAndLimitRange_scenario_refuted :
    ¬ (calib100_900.CheckAndLimitRange 50 0 = (false, 100) ∧
       calib100_900.CheckAndLimitRange 950 0 = (true, 900) ∧
       calib100_900.CheckAndLimitRange 1200 0 = (false, 100)) := by
  decide

/-- C2 (amended): with `potmin[idx] = 100`, `potmax[idx] = 900` and slack 200, reading 50
yields stored value 100 and return value true, reading 950 yields stored value 900 and return
value true, reading 1200 yields stored value 100 and return value false. -/
theorem checkAndLimitRange_scenario (t : Throttle) (idx : Fin 2)
    (hmin : t.potmin idx = 100) (hmax : t.potmax idx = 900) :
    t.CheckAndLimitRange 50 idx = (true, 100) ∧
    t.CheckAndLimitRange 950 idx = (true, 900) ∧
    t.CheckAndLimitRange 1200 idx = (false, 100) := by
  simp [CheckAndLimitRange, POT_SLACK, hmin, hmax]

theorem checkAndLimitRange_scenario_witness :
    calib100_900.potmin 0 = 100 ∧ calib100_900.potmax 0 = 900 ∧
    calib100_900.CheckAndLimitRange 50 0 = (true, 100) ∧
    calib100_900.CheckAndLimitRange 950 0 = (true, 900) ∧
    calib100_900.CheckAndLimitRange 1200 0 = (false, 100) :=
  ⟨by decide, by decide, checkAndLimitRange_scenario calib100_900 0 (by decide) (by decide)⟩

/-! ## Dual-throttle plausibility -/

/-- The primary percentage as the claim words it:
`100 * (potval - potmin[0]) / (potmax[0] - potmin[0])`, truncating division. -/
def primaryPercent (t : Throttle) (potval : Int) : Int :=
  Int.tdiv (100 * (potval - t.potmin 0)) (t.potmax 0 - t.potmin 0)

/-- The secondary percentage as the claim words it: the inverted formula
`100 - 100 * (pot2val - potmax[1]) / (potmin[1] - potmax[1])` when `potmin[1] > potmax[1]`,
otherwise `100 * (pot2val - potmin[1]) / (potmax[1] - potmin[1])`, truncating division. -/
def secondaryPercent (t : Throttle) (pot2val : Int) : Int :=
  if t.potmin 1 > t.potmax 1 then
    100 - Int.tdiv (100 * (pot2val - t.potmax 1)) (t.potmin 1 - t.potmax 1)
  else
    Int.tdiv (100 * (pot2val - t.potmin 1)) (t.potmax 1 - t.potmin 1)

/-- The final test of `CheckDualThrottle` on the two percentages `b` (secondary) and `a`
(primary). -/
theorem dualThrottle_verdict (b a p m : Int) :
    ∃ r, (if ABS (b - a) > 10 then some (false, m) else some (true, p)) = some r ∧
      (r.1 = true ↔ |a - b| ≤ 10) ∧ (r.1 = true → r.2 = p) ∧ (r.1 = false → r.2 = m) := by
  rw [ABS_eq_abs, abs_sub_comm]
  split_ifs with hd
  · exact ⟨_, rfl, by simpa using hd, by simp, by simp⟩
  · exact ⟨_, rfl, by simpa using hd, by simp, by simp⟩

/-- C3: for every calibration with `potmin[0] ≠ potmax[0]` and `potmin[1] ≠ potmax[1]` and
every pair of readings, `CheckDualThrottle` returns, and it returns true iff the primary and
secondary percentages differ by at most 10; on true the primary reading is unchanged, on
false it is overwritten with `potmin[0]`. -/
theorem checkDualThrottle_contract (t : Throttle) (potval pot2val : Int)
    (h0 : t.potmin 0 ≠ t.potmax 0) (h1 : t.potmin 1 ≠ t.potmax 1) :
    ∃ r, t.CheckDualThrottle potval pot2val = some r ∧
      (r.1 = true ↔ |t.primaryPercent potval - t.secondaryPercent pot2val| ≤ 10) ∧
      (r.1 = true → r.2 = potval) ∧
      (r.1 = false → r.2 = t.potmin 0) := by
  have d0 : t.potmax 0 - t.potmin 0 ≠ 0 := fun h => h0 (by omega)
  have d1 : t.potmax 1 - t.potmin 1 ≠ 0 := fun h => h1 (by omega)
  have d1' : t.potmin 1 - t.potmax 1 ≠ 0 := fun h => h1 (by omega)
  by_cases hinv : t.potmin 1 > t.potmax 1
  · simpa [CheckDualThrottle, primaryPercent, secondaryPercent, cdiv_of_ne d0,
      cdiv_of_ne d1', hinv] using dualThrottle_verdict _ _ potval (t.potmin 0)
  · simpa [CheckDualThrottle, primaryPercent, secondaryPercent, cdiv_of_ne d0,
      cdiv_of_ne d1, hinv] using dualThrottle_verdict _ _ potval (t.potmin 0)

theorem checkDualThrottle_contract_witness :
    calib100_900.potmin 0 ≠ calib100_900.potmax 0 ∧
    calib100_900.potmin 1 ≠ calib100_900.potmax 1 ∧
    ∃ r, calib100_900.CheckDualThrottle 500 700 = some r ∧
      (r.1 = true ↔
        |calib100_900.primaryPercent 500 - calib100_900.secondaryPercent 700| ≤ 10) ∧
      (r.1 = true → r.2 = 500) ∧
      (r.1 = false → r.2 = calib100_900.potmin 0) :=
  ⟨by decide, by decide, checkDualThrottle_contract calib100_900 500 700 (by decide) (by decide)⟩

/-! ## Pedal-to-command map -/

/-- The primary percentage computed by `CalcThrottle`, as the claims word it:
`((100 + brknom) * FP(potval - potmin[0])) / (potmax[0] - potmin[0]) - FP(brknom)`. -/
def pedalPercent (fd : Nat) (t : Throttle) (potval : Int) : Int :=
  Int.tdiv ((100 + t.brknom) * FP_FROMINT fd (potval - t.potmin 0)) (t.potmax 0 - t.potmin 0)
    - FP_FROMINT fd t.brknom

/-- The lever-scaled brake ceiling `-1 + (ceiling * potnom2) / 100` of `CalcThrottle`, with
`potnom2 = 100 * (pot2val - potmin[1]) / (potmax[1] - potmin[1])`. -/
def leverCeiling (t : Throttle) (ceiling pot2val : Int) : Int :=
  -1 + Int.tdiv (ceiling * Int.tdiv (100 * (pot2val - t.potmin 1)) (t.potmax 1 - t.potmin 1)) 100

theorem pedalPercent_at_max (fd : Nat) (t : Throttle) (h0 : t.potmax 0 > t.potmin 0) :
    t.pedalPercent fd (t.potmax 0) = FP_FROMINT fd 100 := by
  have hne : t.potmax 0 - t.potmin 0 ≠ 0 := by omega
  have : (100 + t.brknom) * FP_FROMINT fd (t.potmax 0 - t.potmin 0)
      = ((100 + t.brknom) * 2 ^ fd) * (t.potmax 0 - t.potmin 0) := by
    unfold FP_FROMINT; ring
  rw [pedalPercent, this, Int.mul_tdiv_cancel _ hne]
  unfold FP_FROMINT; ring

theorem leverCeiling_le (t : Throttle) (ceiling pot2val : Int) (hc : ceiling ≤ 0)
    (h1 : t.potmax 1 > t.potmin 1) (h2 : pot2val > t.potmin 1) :
    t.leverCeiling ceiling pot2val ≤ -1 := by
  have hq : 0 ≤ Int.tdiv (100 * (pot2val - t.potmin 1)) (t.potmax 1 - t.potmin 1) :=
    Int.tdiv_nonneg (by omega) (by omega)
  have hp : ceiling * Int.tdiv (100 * (pot2val - t.potmin 1)) (t.potmax 1 - t.potmin 1) ≤ 0 :=
    Int.mul_nonpos_of_nonpos_of_nonneg hc hq
  have := tdiv_nonpos_of_nonpos hp (by decide : (0 : Int) ≤ 100)
  unfold leverCeiling; omega

/-- Calibration with channel 1 wired inverted (`potmin[1] = 1000 > potmax[1] = 0`) and a
pedal-brake ceiling of -100. -/
def calibInverted : Throttle :=
  { potmin := fun i => if i = 0 then 100 else 1000
    potmax := fun i => if i = 0 then 900 else 0
    brknom := 30, brknompedal := -100, brkmax := -30
    bmslimhigh := 50, bmslimlow := -50
    udcmin := 0, udcmax := 0, idcmin := 0, idcmax := 0, iacmax := 0, iackp := 0 }

/-- A reading above `potmin[1]` on an inverted span (`potmin[1] = 1000`, `potmax[1] = 0`)
lies outside the calibrated span: `CheckAndLimitRange` replaces 1010 by 1000, for which the
lever branch of `CalcThrottle` is not taken and the pedal ceiling -100 is returned.  Fed to
`CalcThrottle` without the range check, the reading 1010 would yield 0. -/
theorem calcThrottle_outside_span :
    calibInverted.CheckAndLimitRange 1010 1 = (true, 1000) ∧
    CalcThrottle 5 calibInverted (calibInverted.potmax 0) 1000 true = some (-100) ∧
    CalcThrottle 5 calibInverted (calibInverted.potmax 0) 1010 true = some 0 := by
  decide

/-- The brake ceiling selected and lever-scaled by the first part of `CalcThrottle`. -/
def brakeCeiling (t : Throttle) (pot2val : Int) (brkpedal : Bool) : Int :=
  if pot2val > t.potmin 1 then
    t.leverCeiling (if brkpedal then t.brknompedal else t.brkmax) pot2val
  else
    if brkpedal then t.brknompedal else t.brkmax

/-- Closed form of `CalcThrottle` when no divisor is zero. -/
theorem calcThrottle_eq (fd : Nat) (t : Throttle) (potval pot2val : Int) (brkpedal : Bool)
    (h0 : t.potmax 0 ≠ t.potmin 0) (h1 : t.potmax 1 ≠ t.potmin 1) (hb : t.brknom ≠ 0) :
    CalcThrottle fd t potval pot2val brkpedal =
      some (if t.pedalPercent fd potval < 0 then
              Int.tdiv (-(t.pedalPercent fd potval * t.brakeCeiling pot2val brkpedal)) t.brknom
            else if brkpedal then t.brakeCeiling pot2val brkpedal
            else t.pedalPercent fd potval) := by
  have d0 : t.potmax 0 - t.potmin 0 ≠ 0 := fun h => h0 (by omega)
  have d1 : t.potmax 1 - t.potmin 1 ≠ 0 := fun h => h1 (by omega)
  unfold CalcThrottle pedalPercent brakeCeiling leverCeiling
  simp only [cdiv_of_ne d0, cdiv_of_ne d1, cdiv_of_ne hb]
  cases brkpedal <;> split_ifs <;> simp_all

theorem brakeCeiling_nonpos (t : Throttle) (pot2val : Int) (brkpedal : Bool)
    (hbm : t.brkmax ≤ 0) (hbp : t.brknompedal ≤ 0) (h1 : t.potmax 1 > t.potmin 1) :
    t.brakeCeiling pot2val brkpedal ≤ 0 := by
  have hc : (if brkpedal then t.brknompedal else t.brkmax) ≤ 0 := by
    cases brkpedal <;> simpa
  unfold brakeCeiling
  split
  · have := t.leverCeiling_le _ pot2val hc h1 (by assumption)
    omega
  · exact hc

/-- C5: with `brknom > 0`, `brkmax ≤ 0`, `brknompedal ≤ 0`, `potmax[0] > potmin[0]` and
`potmax[1] > potmin[1]`, for every `potval`, `pot2val`: `CalcThrottle` returns a value that
is `≤ 0` whenever the brake pedal flag is true or the computed primary percentage is
negative; a positive value is returned only when the brake pedal is inactive and that
percentage is positive. -/
theorem calcThrottle_brake_dominates (fd : Nat) (t : Throttle) (potval pot2val : Int)
    (brkpedal : Bool) (hbn : 0 < t.brknom) (hbm : t.brkmax ≤ 0) (hbp : t.brknompedal ≤ 0)
    (h0 : t.potmax 0 > t.potmin 0) (h1 : t.potmax 1 > t.potmin 1) :
    ∃ r, CalcThrottle fd t potval pot2val brkpedal = some r ∧
      ((brkpedal = true ∨ t.pedalPercent fd potval < 0) → r ≤ 0) ∧
      (0 < r → brkpedal = false ∧ 0 < t.pedalPercent fd potval) := by
  have hS := t.brakeCeiling_nonpos pot2val brkpedal hbm hbp h1
  have hneg : t.pedalPercent fd potval < 0 →
      Int.tdiv (-(t.pedalPercent fd potval * t.brakeCeiling pot2val brkpedal)) t.brknom ≤ 0 := by
    intro hn
    apply tdiv_nonpos_of_nonpos _ hbn.le
    have := mul_nonneg_of_nonpos_of_nonpos hn.le hS
    omega
  refine ⟨_, t.calcThrottle_eq fd potval pot2val brkpedal (by omega) (by omega) (by omega), ?_, ?_⟩
  · rintro (hb | hn)
    · subst hb
      by_cases hn : t.pedalPercent fd potval < 0
      · rw [if_pos hn]; exact hneg hn
      · rw [if_neg hn]; simpa using hS
    · rw [if_pos hn]; exact hneg hn
  · intro hr
    split_ifs at hr with hn hb
    · have := hneg hn; omega
    · omega
    · exact ⟨by simpa using hb, hr⟩

theorem calcThrottle_brake_dominates_witness :
    0 < calib100_900.brknom ∧ calib100_900.brkmax ≤ 0 ∧ calib100_900.brknompedal ≤ 0 ∧
    calib100_900.potmax 0 > calib100_900.potmin 0 ∧
    calib100_900.potmax 1 > calib100_900.potmin 1 ∧
    ∃ r, CalcThrottle 5 calib100_900 150 500 false = some r ∧
      (((false : Bool) = true ∨ calib100_900.pedalPercent 5 150 < 0) → r ≤ 0) ∧
      (0 < r → (false : Bool) = false ∧ 0 < calib100_900.pedalPercent 5 150) :=
  ⟨by decide, by decide, by decide, by decide, by decide,
    calcThrottle_brake_dominates 5 calib100_900 150 500 false
      (by decide) (by decide) (by decide) (by decide) (by decide)⟩

/-! ## Cascaded limiters: the three clamps -/

/-- A direction-aware clamp: non-negative commands are capped at `P`, negative commands at
`N`.  The temperature, DC-voltage and DC-current limiters all have this shape. -/
def signClamp (P N c : Int) : Int := if c ≥ 0 then min c P else max c N

theorem signClamp_comp (P N P' N' c : Int) (hP : 0 ≤ P) (hN : N ≤ 0) (hP' : 0 ≤ P')
    (hN' : N' ≤ 0) :
    signClamp P N (signClamp P' N' c) = signClamp (min P P') (max N N') c := by
  unfold signClamp
  split_ifs <;> omega

theorem signClamp_comm (P N P' N' c : Int) (hP : 0 ≤ P) (hN : N ≤ 0) (hP' : 0 ≤ P')
    (hN' : N' ≤ 0) :
    signClamp P N (signClamp P' N' c) = signClamp P' N' (signClamp P N c) := by
  rw [signClamp_comp P N P' N' c hP hN hP' hN', signClamp_comp P' N' P N c hP' hN' hP hN,
    min_comm, max_comm]

theorem signClamp_idem (P N c : Int) (hP : 0 ≤ P) (hN : N ≤ 0) :
    signClamp P N (signClamp P N c) = signClamp P N c := by
  rw [signClamp_comp P N P N c hP hN hP hN, min_self, max_self]

theorem limit_nonneg (fd : Nat) (tmphs : Int) : 0 ≤ TemperatureDerate.limit fd tmphs := by
  unfold TemperatureDerate.limit
  split_ifs
  · exact FP_FROMINT_nonneg fd (by decide)
  · exact FP_FROMINT_nonneg fd (by decide)
  · exact le_refl 0

theorem temperatureDerate_eq_signClamp (fd : Nat) (tmphs c : Int) :
    (TemperatureDerate fd tmphs c).2 =
      signClamp (TemperatureDerate.limit fd tmphs) (-(TemperatureDerate.limit fd tmphs)) c := by
  simp only [TemperatureDerate, signClamp, MIN_eq_min, MAX_eq_max]

theorem udcLimitCommand_eq_signClamp (t : Throttle) (c udc : Int) :
    t.UdcLimitCommand c udc =
      signClamp (max 0 ((udc - t.udcmin) * 5)) (min 0 ((udc - t.udcmax) * 5)) c := by
  simp only [UdcLimitCommand, signClamp, MIN_eq_min, MAX_eq_max]

theorem idcLimitCommand_eq_signClamp (t : Throttle) (c idc : Int) :
    t.IdcLimitCommand c idc =
      signClamp (max 0 ((t.idcmax - idc) * 10)) (min 0 ((t.idcmin - idc) * 10)) c := by
  simp only [IdcLimitCommand, signClamp, MIN_eq_min, MAX_eq_max, min_comm, max_comm]

/-- C6: `TemperatureDerate`, `UdcLimitCommand` and `IdcLimitCommand` are idempotent: for
every command and every fixed measurement and parameter values, applying the limiter to its
own output with the same inputs leaves the command unchanged. -/
theorem clamp_limiters_idempotent (fd : Nat) (t : Throttle) (c tmphs udc idc : Int) :
    (TemperatureDerate fd tmphs (TemperatureDerate fd tmphs c).2).2
        = (TemperatureDerate fd tmphs c).2 ∧
    t.UdcLimitCommand (t.UdcLimitCommand c udc) udc = t.UdcLimitCommand c udc ∧
    t.IdcLimitCommand (t.IdcLimitCommand c idc) idc = t.IdcLimitCommand c idc := by
  refine ⟨?_, ?_, ?_⟩
  · simp only [temperatureDerate_eq_signClamp]
    exact signClamp_idem _ _ c (limit_nonneg fd tmphs) (by have := limit_nonneg fd tmphs; omega)
  · simp only [udcLimitCommand_eq_signClamp]
    exact signClamp_idem _ _ c (le_max_left _ _) (min_le_left _ _)
  · simp only [idcLimitCommand_eq_signClamp]
    exact signClamp_idem _ _ c (le_max_left _ _) (min_le_left _ _)

/-! ## Cascaded limiters: battery interlock and AC current -/

/-- Limiter settings used as a test point: BMS scaling 50 %, wide DC windows, AC limit and
gain of 100 in fixed point with 5 fraction digits. -/
def limiterParams : Throttle :=
  { potmin := fun _ => 0, potmax := fun _ => 4095
    brknom := 30, brknompedal := -60, brkmax := -30
    bmslimhigh := 50, bmslimlow := -50
    udcmin := 0, udcmax := 16000, idcmin := -16000, idcmax := 16000
    iacmax := 3200, iackp := 3200 }

/-- C7 (as stated, refuted): neither limiter is idempotent.  With `bmslimhigh = 50` the
command 3200 becomes 1600 and then 800; with `iacmax = iackp = 3200` (5 fraction digits) and
`iac = 3199` the command 3200 becomes 100 and then 0. -/
theorem bms_iac_idempotent_refuted :
    limiterParams.BmsLimitCommand (limiterParams.BmsLimitCommand 3200 true) true
      ≠ limiterParams.BmsLimitCommand 3200 true ∧
    IacLimitCommand 5 limiterParams (IacLimitCommand 5 limiterParams 3200 3199) 3199
      ≠ IacLimitCommand 5 limiterParams 3200 3199 := by
  decide

/-- Output `c'` of a limiter stage tightens input `c`: the magnitude does not grow and `c'`
is zero or has the sign of `c`. -/
def Tightens (c c' : Int) : Prop := |c'| ≤ |c| ∧ (0 < c' → 0 < c) ∧ (c' < 0 → c < 0)

theorem tightens_of_between {c c' : Int} (hp : 0 ≤ c → 0 ≤ c' ∧ c' ≤ c)
    (hn : c < 0 → c ≤ c' ∧ c' ≤ 0) : Tightens c c' := by
  unfold Tightens
  rcases le_or_lt 0 c with h | h
  · obtain ⟨h1, h2⟩ := hp h
    rw [abs_of_nonneg h1, abs_of_nonneg h]
    exact ⟨h2, fun h3 => by omega, fun h3 => by omega⟩
  · obtain ⟨h1, h2⟩ := hn h
    rw [abs_of_nonpos h2, abs_of_neg h]
    exact ⟨by omega, fun h3 => by omega, fun _ => h⟩

theorem signClamp_tightens (P N c : Int) (hP : 0 ≤ P) (hN : N ≤ 0) :
    Tightens c (signClamp P N c) := by
  apply tightens_of_between <;> intro h <;> unfold signClamp <;> split_ifs <;> omega

theorem bms_between (t : Throttle) (c : Int) (dinbms : Bool)
    (hh : 0 ≤ t.bmslimhigh ∧ t.bmslimhigh ≤ 100) (hl : -100 ≤ t.bmslimlow ∧ t.bmslimlow ≤ 0) :
    (0 ≤ c → 0 ≤ t.BmsLimitCommand c dinbms ∧ t.BmsLimitCommand c dinbms ≤ c) ∧
    (c < 0 → c ≤ t.BmsLimitCommand c dinbms ∧ t.BmsLimitCommand c dinbms ≤ 0) := by
  constructor
  · intro hc
    cases dinbms
    · simp [BmsLimitCommand, hc]
    · have h1 : 0 ≤ c * t.bmslimhigh := mul_nonneg hc hh.1
      have h2 : c * t.bmslimhigh ≤ c * 100 := mul_le_mul_of_nonneg_left hh.2 hc
      simp only [BmsLimitCommand, if_true, ge_iff_le, hc, tdiv_hundred_of_nonneg h1]
      omega
  · intro hc
    cases dinbms
    · simp [BmsLimitCommand, hc.le]
    · have h1 : 0 ≤ c * t.bmslimlow := mul_nonneg_of_nonpos_of_nonpos hc.le hl.2
      have h2 : c * t.bmslimlow ≤ c * (-100) := mul_le_mul_of_nonpos_left hl.1 hc.le
      have h3 : ¬ (c ≥ 0) := by omega
      simp only [BmsLimitCommand, if_true, h3, if_false,
        tdiv_hundred_of_nonpos (by omega : -(c * t.bmslimlow) ≤ 0), neg_neg]
      omega

theorem iac_between (fd : Nat) (t : Throttle) (c iac : Int) :
    (0 ≤ c → 0 ≤ IacLimitCommand fd t c iac ∧ IacLimitCommand fd t c iac ≤ c) ∧
    (c < 0 → c ≤ IacLimitCommand fd t c iac ∧ IacLimitCommand fd t c iac ≤ 0) := by
  constructor <;> intro hc <;>
    simp only [IacLimitCommand, MIN_eq_min, MAX_eq_max] <;> split_ifs <;> omega

theorem bms_zero (t : Throttle) (dinbms : Bool) : t.BmsLimitCommand 0 dinbms = 0 := by
  cases dinbms <;> simp [BmsLimitCommand, Int.zero_tdiv]

theorem iac_zero (fd : Nat) (t : Throttle) (iac : Int) : IacLimitCommand fd t 0 iac = 0 := by
  simp only [IacLimitCommand, MIN_eq_min, MAX_eq_max]
  split_ifs <;> omega

/-- C7 (amended): `BmsLimitCommand` (battery-interlock signal asserted) and `IacLimitCommand`
are not idempotent in general; applied a second time with unchanged inputs they only tighten
further: with `0 ≤ bmslimhigh ≤ 100` and `-100 ≤ bmslimlow ≤ 0` the second BMS output is zero
or has the sign of the first and no larger magnitude, and the same holds for the AC-current
limiter.  `BmsLimitCommand` is idempotent when `bmslimhigh ∈ {0, 100}` and
`bmslimlow ∈ {0, -100}`; `IacLimitCommand` is idempotent on every command whose first
application yields 0. -/
theorem bms_iac_reapplication (fd : Nat) (t : Throttle) (c iac : Int)
    (hh : 0 ≤ t.bmslimhigh ∧ t.bmslimhigh ≤ 100) (hl : -100 ≤ t.bmslimlow ∧ t.bmslimlow ≤ 0) :
    Tightens (t.BmsLimitCommand c true) (t.BmsLimitCommand (t.BmsLimitCommand c true) true) ∧
    ((t.bmslimhigh = 0 ∨ t.bmslimhigh = 100) → (t.bmslimlow = 0 ∨ t.bmslimlow = -100) →
      t.BmsLimitCommand (t.BmsLimitCommand c true) true = t.BmsLimitCommand c true) ∧
    Tightens (IacLimitCommand fd t c iac) (IacLimitCommand fd t (IacLimitCommand fd t c iac) iac) ∧
    (IacLimitCommand fd t c iac = 0 →
      IacLimitCommand fd t (IacLimitCommand fd t c iac) iac = IacLimitCommand fd t c iac) := by
  refine ⟨?_, ?_, ?_, ?_⟩
  · exact tightens_of_between (t.bms_between _ true hh hl).1 (t.bms_between _ true hh hl).2
  · intro h1 h2
    have key : ∀ x : Int, (x ≥ 0 → t.BmsLimitCommand x true = 0 ∨ t.BmsLimitCommand x true = x) ∧
        (x < 0 → t.BmsLimitCommand x true = 0 ∨ t.BmsLimitCommand x true = x) := by
      intro x
      constructor
      · intro hx
        rcases h1 with h | h
        · left; simp [BmsLimitCommand, hx, h, Int.zero_tdiv]
        · right; simp [BmsLimitCommand, hx, h, Int.mul_tdiv_cancel]
      · intro hx
        have hx' : ¬ (x ≥ 0) := by omega
        rcases h2 with h | h
        · left; simp [BmsLimitCommand, hx', h, Int.zero_tdiv]
        · right; simp [BmsLimitCommand, hx', h, Int.mul_tdiv_cancel]
    have hc : t.BmsLimitCommand c true = 0 ∨ t.BmsLimitCommand c true = c := by
      rcases le_or_lt 0 c with h | h
      · exact (key c).1 h
      · exact (key c).2 h
    rcases hc with h | h
    · rw [h, bms_zero]
    · rw [h, h]
  · exact tightens_of_between (iac_between fd t _ iac).1 (iac_between fd t _ iac).2
  · intro h
    rw [h, iac_zero]

theorem bms_iac_reapplication_witness :
    (0 ≤ limiterParams.bmslimhigh ∧ limiterParams.bmslimhigh ≤ 100) ∧
    (-100 ≤ limiterParams.bmslimlow ∧ limiterParams.bmslimlow ≤ 0) ∧
    Tightens (limiterParams.BmsLimitCommand 3200 true)
      (limiterParams.BmsLimitCommand (limiterParams.BmsLimitCommand 3200 true) true) ∧
    ((limiterParams.bmslimhigh = 0 ∨ limiterParams.bmslimhigh = 100) →
      (limiterParams.bmslimlow = 0 ∨ limiterParams.bmslimlow = -100) →
      limiterParams.BmsLimitCommand (limiterParams.BmsLimitCommand 3200 true) true
        = limiterParams.BmsLimitCommand 3200 true) ∧
    Tightens (IacLimitCommand 5 limiterParams 3200 3199)
      (IacLimitCommand 5 limiterParams (IacLimitCommand 5 limiterParams 3200 3199) 3199) ∧
    (IacLimitCommand 5 limiterParams 3200 3199 = 0 →
      IacLimitCommand 5 limiterParams (IacLimitCommand 5 limiterParams 3200 3199) 3199
        = IacLimitCommand 5 limiterParams 3200 3199) :=
  ⟨by decide, by decide,
    bms_iac_reapplication 5 limiterParams 3200 3199 (by decide) (by decide)⟩

/-- C8: no limiter stage increases the command magnitude or flips its sign: for every
command `c` and every measurement input, `TemperatureDerate`, `UdcLimitCommand`,
`IdcLimitCommand` and `IacLimitCommand` produce `c'` with `|c'| ≤ |c|` and `c'` zero or of the
sign of `c`; the same holds for `BmsLimitCommand` whenever `0 ≤ bmslimhigh ≤ 100` and
`-100 ≤ bmslimlow ≤ 0`. -/
theorem limiters_tighten (fd : Nat) (t : Throttle) (c tmphs udc idc iac : Int)
    (dinbms : Bool) :
    Tightens c (TemperatureDerate fd tmphs c).2 ∧
    Tightens c (t.UdcLimitCommand c udc) ∧
    Tightens c (t.IdcLimitCommand c idc) ∧
    Tightens c (IacLimitCommand fd t c iac) ∧
    (0 ≤ t.bmslimhigh ∧ t.bmslimhigh ≤ 100 → -100 ≤ t.bmslimlow ∧ t.bmslimlow ≤ 0 →
      Tightens c (t.BmsLimitCommand c dinbms)) := by
  refine ⟨?_, ?_, ?_, ?_, ?_⟩
  · rw [temperatureDerate_eq_signClamp]
    exact signClamp_tightens _ _ c (limit_nonneg fd tmphs)
      (by have := limit_nonneg fd tmphs; omega)
  · rw [udcLimitCommand_eq_signClamp]
    exact signClamp_tightens _ _ c (le_max_left _ _) (min_le_left _ _)
  · rw [idcLimitCommand_eq_signClamp]
    exact signClamp_tightens _ _ c (le_max_left _ _) (min_le_left _ _)
  · exact tightens_of_between (iac_between fd t c iac).1 (iac_between fd t c iac).2
  · intro hh hl
    exact tightens_of_between (t.bms_between c dinbms hh hl).1 (t.bms_between c dinbms hh hl).2

/-! ## The cascade -/

/-- The five limiter stages. -/
inductive Limiter where
  | temperature
  | bms
  | udc
  | idc
  | iac
  deriving DecidableEq, Repr

/-- The measurements handed to the limiter stages, held fixed along a cascade. -/
structure LimiterInputs where
  tmphs : Int
  dinbms : Bool
  udc : Int
  idc : Int
  iac : Int

/-- One stage of the cascade: the command left in `finalSpnt` by the named limiter. -/
def applyLimiter (fd : Nat) (t : Throttle) (inp : LimiterInputs) (l : Limiter) (c : Int) : Int :=
  match l with
  | .temperature => (TemperatureDerate fd inp.tmphs c).2
  | .bms => t.BmsLimitCommand c inp.dinbms
  | .udc => t.UdcLimitCommand c inp.udc
  | .idc => t.IdcLimitCommand c inp.idc
  | .iac => IacLimitCommand fd t c inp.iac

/-- The limiters of `ls` applied one after the other, first element first. -/
def runLimiters (fd : Nat) (t : Throttle) (inp : LimiterInputs) (ls : List Limiter) (c : Int) :
    Int :=
  ls.foldl (fun c l => applyLimiter fd t inp l c) c

/-- Stage `l` is a pure clamp under inputs `inp`: one of the temperature, DC-voltage and
DC-current limiters, or the battery limiter while its signal is not asserted. -/
def IsClampStage (inp : LimiterInputs) (l : Limiter) : Prop :=
  l = .temperature ∨ l = .udc ∨ l = .idc ∨ (l = .bms ∧ inp.dinbms = false)

/-- Measurements used as a test point: heat sink at 86 degrees (50 % limit), BMS signal
asserted, DC voltage and current well inside their windows, no AC current. -/
def hotInputs : LimiterInputs :=
  { tmphs := 2752, dinbms := true, udc := 8000, idc := 0, iac := 0 }

/-- The temperature, DC-voltage and DC-current stages are `signClamp`s with a non-negative
upper and a non-positive lower bound. -/
theorem clampStage_eq_signClamp (fd : Nat) (t : Throttle) (inp : LimiterInputs) (l : Limiter)
    (h : l = .temperature ∨ l = .udc ∨ l = .idc) :
    ∃ P N, 0 ≤ P ∧ N ≤ 0 ∧ ∀ c, applyLimiter fd t inp l c = signClamp P N c := by
  rcases h with h | h | h <;> subst h
  · exact ⟨_, _, limit_nonneg fd inp.tmphs, by have := limit_nonneg fd inp.tmphs; omega,
      fun c => temperatureDerate_eq_signClamp fd inp.tmphs c⟩
  · exact ⟨_, _, le_max_left _ _, min_le_left _ _, fun c => t.udcLimitCommand_eq_signClamp c _⟩
  · exact ⟨_, _, le_max_left _ _, min_le_left _ _, fun c => t.idcLimitCommand_eq_signClamp c _⟩

theorem applyLimiter_bms_off (fd : Nat) (t : Throttle) (inp : LimiterInputs)
    (hb : inp.dinbms = false) (c : Int) : applyLimiter fd t inp .bms c = c := by
  simp [applyLimiter, BmsLimitCommand, hb]

/-- Two clamp stages can be swapped. -/
theorem applyLimiter_comm (fd : Nat) (t : Throttle) (inp : LimiterInputs) (a b : Limiter)
    (ha : IsClampStage inp a) (hb : IsClampStage inp b) (c : Int) :
    applyLimiter fd t inp a (applyLimiter fd t inp b c)
      = applyLimiter fd t inp b (applyLimiter fd t inp a c) := by
  by_cases hab : a = .bms
  · subst hab
    have hoff : inp.dinbms = false := by
      rcases ha with h | h | h | ⟨_, h⟩
      · cases h
      · cases h
      · cases h
      · exact h
    rw [applyLimiter_bms_off fd t inp hoff, applyLimiter_bms_off fd t inp hoff]
  by_cases hbb : b = .bms
  · subst hbb
    have hoff : inp.dinbms = false := by
      rcases hb with h | h | h | ⟨_, h⟩
      · cases h
      · cases h
      · cases h
      · exact h
    rw [applyLimiter_bms_off fd t inp hoff, applyLimiter_bms_off fd t inp hoff]
  have ha' : a = .temperature ∨ a = .udc ∨ a = .idc := by
    rcases ha with h | h | h | ⟨h, _⟩
    · exact Or.inl h
    · exact Or.inr (Or.inl h)
    · exact Or.inr (Or.inr h)
    · exact absurd h hab
  have hb' : b = .temperature ∨ b = .udc ∨ b = .idc := by
    rcases hb with h | h | h | ⟨h, _⟩
    · exact Or.inl h
    · exact Or.inr (Or.inl h)
    · exact Or.inr (Or.inr h)
    · exact absurd h hbb
  obtain ⟨P, N, hP, hN, hA⟩ := clampStage_eq_signClamp fd t inp a ha'
  obtain ⟨P', N', hP', hN', hB⟩ := clampStage_eq_signClamp fd t inp b hb'
  rw [hA, hB, hB, hA]
  exact signClamp_comm P N P' N' c hP hN hP' hN'

theorem runLimiters_perm_aux (fd : Nat) (t : Throttle) (inp : LimiterInputs)
    {l₁ l₂ : List Limiter} (hp : l₁.Perm l₂) :
    (∀ l ∈ l₁, IsClampStage inp l) → ∀ c, runLimiters fd t inp l₁ c = runLimiters fd t inp l₂ c := by
  induction hp with
  | nil => intro _ c; rfl
  | cons x _ ih =>
    intro h c
    simp only [runLimiters, List.foldl_cons]
    exact ih (fun l hl => h l (List.mem_cons_of_mem _ hl)) _
  | swap x y l =>
    intro h c
    simp only [runLimiters, List.foldl_cons]
    rw [applyLimiter_comm fd t inp x y (h x (by simp)) (h y (by simp))]
  | trans hp₁ _ ih₁ ih₂ =>
    intro h c
    rw [ih₁ h c]
    exact ih₂ (fun l hl => h l (hp₁.mem_iff.mpr hl)) c

/-- C9 (as stated, refuted): the two orders temperature, BMS, DC voltage, DC current, AC
current and BMS, temperature, DC voltage, DC current, AC current are permutations of the five
limiters, yet from the command 3200 (100 % with 5 fraction digits), at a heat-sink
temperature giving the 50 % limit and with `bmslimhigh = 50`, the first ends at 800 and the
second at 1600. -/
theorem limiter_order_refuted :
    [Limiter.temperature, .bms, .udc, .idc, .iac].Perm [.bms, .temperature, .udc, .idc, .iac] ∧
    runLimiters 5 limiterParams hotInputs [.temperature, .bms, .udc, .idc, .iac] 3200 = 800 ∧
    runLimiters 5 limiterParams hotInputs [.bms, .temperature, .udc, .idc, .iac] 3200 = 1600 := by
  refine ⟨List.Perm.swap _ _ _, by decide, by decide⟩

/-- C9 (amended): for every starting command and every fixed set of inputs, any two orders of
a cascade built from `TemperatureDerate`, `UdcLimitCommand`, `IdcLimitCommand` and
`BmsLimitCommand` with its signal not asserted (each stage any number of times) yield the same
final command.  Nothing is claimed for cascades containing `BmsLimitCommand` with the signal
asserted or `IacLimitCommand`. -/
theorem runLimiters_perm (fd : Nat) (t : Throttle) (inp : LimiterInputs)
    (l₁ l₂ : List Limiter) (c : Int) (hp : l₁.Perm l₂)
    (hc : ∀ l ∈ l₁, IsClampStage inp l) :
    runLimiters fd t inp l₁ c = runLimiters fd t inp l₂ c :=
  runLimiters_perm_aux fd t inp hp hc c

theorem runLimiters_perm_witness :
    [Limiter.temperature, .udc, .idc].Perm [.idc, .temperature, .udc] ∧
    (∀ l ∈ [Limiter.temperature, .udc, .idc], IsClampStage hotInputs l) ∧
    runLimiters 5 limiterParams hotInputs [.temperature, .udc, .idc] 3200
      = runLimiters 5 limiterParams hotInputs [.idc, .temperature, .udc] 3200 :=
  have hp : [Limiter.temperature, .udc, .idc].Perm [.idc, .temperature, .udc] :=
    ((List.Perm.swap Limiter.idc Limiter.udc []).cons Limiter.temperature).trans
      (List.Perm.swap Limiter.idc Limiter.temperature [Limiter.udc])
  have hc : ∀ l ∈ [Limiter.temperature, .udc, .idc], IsClampStage hotInputs l := by
    intro l hl
    simp only [List.mem_cons, List.mem_singleton, List.not_mem_nil, or_false] at hl
    rcases hl with h | h | h
    · exact Or.inl h
    · exact Or.inr (Or.inl h)
    · exact Or.inr (Or.inr (Or.inl h))
  ⟨hp, hc, runLimiters_perm 5 limiterParams hotInputs _ _ 3200 hp hc⟩

/-! ## Temperature derating -/

/-- C10: `TemperatureDerate` applies a limit `L` that depends only on `tmphs`:
`L = FP(100)` when `tmphs ≤ TMPHS_MAX`, `L = FP(50)` when
`TMPHS_MAX < tmphs < TMPHS_MAX + FP(2)`, `L = 0` when `tmphs ≥ TMPHS_MAX + FP(2)`; the command
becomes `min(c, L)` for `c ≥ 0` and `max(c, -L)` for `c < 0`, that is `c` clamped into
`[-L, L]`. -/
theorem temperatureDerate_limit (fd : Nat) (tmphs : Int) :
    TMPHS_MAX fd = FP_FROMINT fd 85 ∧
    ∃ L : Int,
      (tmphs ≤ TMPHS_MAX fd → L = FP_FROMINT fd 100) ∧
      (TMPHS_MAX fd < tmphs ∧ tmphs < TMPHS_MAX fd + FP_FROMINT fd 2 → L = FP_FROMINT fd 50) ∧
      (tmphs ≥ TMPHS_MAX fd + FP_FROMINT fd 2 → L = 0) ∧
      ∀ c : Int,
        (c ≥ 0 → (TemperatureDerate fd tmphs c).2 = min c L) ∧
        (c < 0 → (TemperatureDerate fd tmphs c).2 = max c (-L)) ∧
        (TemperatureDerate fd tmphs c).2 = max (-L) (min c L) := by
  have h2 : 0 < FP_FROMINT fd 2 := by unfold FP_FROMINT; positivity
  refine ⟨rfl, TemperatureDerate.limit fd tmphs, ?_, ?_, ?_, ?_⟩
  · intro h; simp [TemperatureDerate.limit, h]
  · rintro ⟨h, h'⟩; simp [TemperatureDerate.limit, not_le.mpr h, h']
  · intro h
    have h3 : ¬ tmphs ≤ TMPHS_MAX fd := by omega
    have h4 : ¬ tmphs < TMPHS_MAX fd + FP_FROMINT fd 2 := by omega
    simp [TemperatureDerate.limit, h3, h4]
  · intro c
    have hL := limit_nonneg fd tmphs
    rw [temperatureDerate_eq_signClamp]
    unfold signClamp
    refine ⟨fun h => by rw [if_pos h], fun h => by rw [if_neg (by omega)], ?_⟩
    split_ifs <;> omega

/-- With at least one fraction digit the value returned by `TemperatureDerate` is true
exactly in the 0 % region: `FP(50)` is not below the raw integer 100. -/
theorem temperatureDerate_flag_iff (fd : Nat) (hfd : 1 ≤ fd) (tmphs c : Int) :
    (TemperatureDerate fd tmphs c).1 = true ↔ tmphs ≥ TMPHS_MAX fd + FP_FROMINT fd 2 := by
  have h2 : (2 : Int) ≤ 2 ^ fd := by
    calc (2 : Int) = 2 ^ 1 := by norm_num
      _ ≤ 2 ^ fd := pow_le_pow_right₀ (by norm_num) hfd
  have h50 : ¬ (FP_FROMINT fd 50 < 100) := by unfold FP_FROMINT; omega
  have h100 : ¬ (FP_FROMINT fd 100 < 100) := by unfold FP_FROMINT; omega
  have hp : 0 < FP_FROMINT fd 2 := by unfold FP_FROMINT; positivity
  simp only [TemperatureDerate, TemperatureDerate.limit, decide_eq_true_eq]
  split_ifs with ha hb
  · simp only [h100, false_iff]; omega
  · simp only [h50, false_iff]; omega
  · constructor
    · intro _; omega
    · intro _; decide

/-- C11 (the code at the failing input): with 5 fraction digits and a heat-sink temperature
of 86 degrees (`tmphs = 2752`, inside the band `TMPHS_MAX < tmphs < TMPHS_MAX + FP(2)`) the
applied limit is `FP(50) = 1600`, below 100 %, yet `TemperatureDerate` returns false for every
command: the returned flag compares the fixed-point limit with the raw integer 100. -/
theorem temperatureDerate_flag_in_band (c : Int) :
    TMPHS_MAX 5 < 2752 ∧ 2752 < TMPHS_MAX 5 + FP_FROMINT 5 2 ∧
    TemperatureDerate.limit 5 2752 = FP_FROMINT 5 50 ∧
    TemperatureDerate.limit 5 2752 < FP_FROMINT 5 100 ∧
    (TemperatureDerate 5 2752 c).1 = false := by
  refine ⟨by decide, by decide, by decide, by decide, ?_⟩
  have h : TemperatureDerate.limit 5 2752 = 1600 := by decide
  simp only [TemperatureDerate, h]
  decide

/-! ## Battery interlock scaling -/

/-- C12 (as stated, refuted): with the signal asserted and `bmslimlow = -50` the negative
command -3200 does not become `(c * bmslimlow) / 100 = 1600`; it becomes -1600. -/
theorem bmsLimitCommand_negative_refuted :
    limiterParams.BmsLimitCommand (-3200) true = -1600 ∧
    Int.tdiv (-3200 * limiterParams.bmslimlow) 100 = 1600 ∧
    limiterParams.BmsLimitCommand (-3200) true
      ≠ Int.tdiv (-3200 * limiterParams.bmslimlow) 100 := by
  decide

/-- C12 (amended): `BmsLimitCommand` with the battery-management signal asserted turns a
command `c ≥ 0` into `(c * bmslimhigh) / 100` and a negative command `c` into
`-(c * bmslimlow) / 100`, the negated product, which is `-((c * bmslimlow) / 100)` under
truncating division, for every `c` and every parameter value; with the signal not asserted
the command is unchanged. -/
theorem bmsLimitCommand_scaling (t : Throttle) (c : Int) :
    (c ≥ 0 → t.BmsLimitCommand c true = Int.tdiv (c * t.bmslimhigh) 100) ∧
    (c < 0 → t.BmsLimitCommand c true = Int.tdiv (-(c * t.bmslimlow)) 100 ∧
      t.BmsLimitCommand c true = -(Int.tdiv (c * t.bmslimlow) 100)) ∧
    t.BmsLimitCommand c false = c := by
  refine ⟨?_, ?_, ?_⟩
  · intro h; simp [BmsLimitCommand, h]
  · intro h
    have h' : ¬ (c ≥ 0) := by omega
    simp [BmsLimitCommand, h', Int.neg_tdiv]
  · simp [BmsLimitCommand]

/-! ## The three clamps in any order -/

/-- Closed form of the cascade of the three clamps as the claim words it:
`min(c, L, max(0, 5*(udc - udcmin)), max(0, 10*(idcmax - idc)))` for `c ≥ 0` and
`max(c, -L, min(0, 5*(udc - udcmax)), min(0, 10*(idcmin - idc)))` for `c < 0`. -/
def clampCascade (t : Throttle) (L c udc idc : Int) : Int :=
  if c ≥ 0 then
    min (min (min c L) (max 0 (5 * (udc - t.udcmin)))) (max 0 (10 * (t.idcmax - idc)))
  else
    max (max (max c (-L)) (min 0 (5 * (udc - t.udcmax)))) (min 0 (10 * (t.idcmin - idc)))

theorem signClamp_three (P₁ N₁ P₂ N₂ P₃ N₃ c : Int) (h₁ : 0 ≤ P₁) (g₁ : N₁ ≤ 0)
    (h₂ : 0 ≤ P₂) (g₂ : N₂ ≤ 0) (h₃ : 0 ≤ P₃) (g₃ : N₃ ≤ 0) :
    signClamp P₃ N₃ (signClamp P₂ N₂ (signClamp P₁ N₁ c))
      = signClamp (min (min P₁ P₂) P₃) (max (max N₁ N₂) N₃) c := by
  rw [signClamp_comp P₂ N₂ P₁ N₁ c h₂ g₂ h₁ g₁,
    signClamp_comp P₃ N₃ _ _ c h₃ g₃ (le_min h₂ h₁) (max_le g₂ g₁)]
  congr 1
  · rw [min_comm P₃, min_comm P₂]
  · rw [max_comm N₃, max_comm N₂]

theorem signClamp_closed (P₁ N₁ P₂ N₂ P₃ N₃ c : Int) :
    signClamp (min (min P₁ P₂) P₃) (max (max N₁ N₂) N₃) c
      = if c ≥ 0 then min (min (min c P₁) P₂) P₃ else max (max (max c N₁) N₂) N₃ := by
  unfold signClamp
  split_ifs
  · simp only [min_assoc]
  · simp only [max_assoc]

/-- C20: for every command and every fixed `tmphs`, `udc`, `udcmin`, `udcmax`, `idc`,
`idcmin`, `idcmax`, the limiters `TemperatureDerate`, `UdcLimitCommand` and `IdcLimitCommand`
applied in each of their six orders yield the same final command, namely
`min(c, L, max(0, 5*(udc - udcmin)), max(0, 10*(idcmax - idc)))` for `c ≥ 0` and
`max(c, -L, min(0, 5*(udc - udcmax)), min(0, 10*(idcmin - idc)))` for `c < 0`, where `L` is
the temperature limit. -/
theorem clamp_limiters_six_orders (fd : Nat) (t : Throttle) (c tmphs udc idc : Int) :
    t.IdcLimitCommand (t.UdcLimitCommand (TemperatureDerate fd tmphs c).2 udc) idc
      = t.clampCascade (TemperatureDerate.limit fd tmphs) c udc idc ∧
    t.UdcLimitCommand (t.IdcLimitCommand (TemperatureDerate fd tmphs c).2 idc) udc
      = t.clampCascade (TemperatureDerate.limit fd tmphs) c udc idc ∧
    t.IdcLimitCommand (TemperatureDerate fd tmphs (t.UdcLimitCommand c udc)).2 idc
      = t.clampCascade (TemperatureDerate.limit fd tmphs) c udc idc ∧
    (TemperatureDerate fd tmphs (t.IdcLimitCommand (t.UdcLimitCommand c udc) idc)).2
      = t.clampCascade (TemperatureDerate.limit fd tmphs) c udc idc ∧
    t.UdcLimitCommand (TemperatureDerate fd tmphs (t.IdcLimitCommand c idc)).2 udc
      = t.clampCascade (TemperatureDerate.limit fd tmphs) c udc idc ∧
    (TemperatureDerate fd tmphs (t.UdcLimitCommand (t.IdcLimitCommand c idc) udc)).2
      = t.clampCascade (TemperatureDerate.limit fd tmphs) c udc idc := by
  have hL := limit_nonneg fd tmphs
  have hL' : -(TemperatureDerate.limit fd tmphs) ≤ 0 := by omega
  have hU : (0 : Int) ≤ max 0 ((udc - t.udcmin) * 5) := le_max_left _ _
  have hU' : min 0 ((udc - t.udcmax) * 5) ≤ (0 : Int) := min_le_left _ _
  have hI : (0 : Int) ≤ max 0 ((t.idcmax - idc) * 10) := le_max_left _ _
  have hI' : min 0 ((t.idcmin - idc) * 10) ≤ (0 : Int) := min_le_left _ _
  have hc : t.clampCascade (TemperatureDerate.limit fd tmphs) c udc idc
      = signClamp
          (min (min (TemperatureDerate.limit fd tmphs) (max 0 ((udc - t.udcmin) * 5)))
            (max 0 ((t.idcmax - idc) * 10)))
          (max (max (-(TemperatureDerate.limit fd tmphs)) (min 0 ((udc - t.udcmax) * 5)))
            (min 0 ((t.idcmin - idc) * 10))) c := by
    rw [signClamp_closed]
    simp only [clampCascade, mul_comm (5 : Int), mul_comm (10 : Int)]
  simp only [temperatureDerate_eq_signClamp, udcLimitCommand_eq_signClamp,
    idcLimitCommand_eq_signClamp, hc]
  refine ⟨?_, ?_, ?_, ?_, ?_, ?_⟩
  · exact signClamp_three _ _ _ _ _ _ c hL hL' hU hU' hI hI'
  · rw [signClamp_three _ _ _ _ _ _ c hL hL' hI hI' hU hU']
    congr 1 <;> ac_rfl
  · rw [signClamp_three _ _ _ _ _ _ c hU hU' hL hL' hI hI']
    congr 1 <;> ac_rfl
  · rw [signClamp_three _ _ _ _ _ _ c hU hU' hI hI' hL hL']
    congr 1 <;> ac_rfl
  · rw [signClamp_three _ _ _ _ _ _ c hI hI' hL hL' hU hU']
    congr 1 <;> ac_rfl
  · rw [signClamp_three _ _ _ _ _ _ c hI hI' hU hU' hL hL']
    congr 1 <;> ac_rfl

/-! ## Pedal map with the brake pedal released -/

/-- The value `CalcThrottle` returns with the brake pedal inactive and the brake lever not
engaged, in terms of the computed percentage. -/
def pedalOut (fd : Nat) (t : Throttle) (potval : Int) : Int :=
  if t.pedalPercent fd potval < 0 then
    Int.tdiv (-(t.pedalPercent fd potval * t.brkmax)) t.brknom
  else
    t.pedalPercent fd potval

theorem calcThrottle_released (fd : Nat) (t : Throttle) (potval pot2val : Int)
    (h0 : t.potmax 0 ≠ t.potmin 0) (hb : t.brknom ≠ 0) (hl : pot2val ≤ t.potmin 1) :
    CalcThrottle fd t potval pot2val false = some (t.pedalOut fd potval) := by
  have d0 : t.potmax 0 - t.potmin 0 ≠ 0 := fun h => h0 (by omega)
  have hl' : ¬ (pot2val > t.potmin 1) := by omega
  unfold CalcThrottle pedalOut pedalPercent
  simp only [cdiv_of_ne d0, cdiv_of_ne hb, hl']
  split_ifs <;> simp_all

theorem pedalPercent_mono (fd : Nat) (t : Throttle) (p q : Int) (h0 : t.potmax 0 > t.potmin 0)
    (hbn : 0 < t.brknom) (hpq : p ≤ q) : t.pedalPercent fd p ≤ t.pedalPercent fd q := by
  unfold pedalPercent FP_FROMINT
  have h2 : (0 : Int) < 2 ^ fd := by positivity
  have hnum : (100 + t.brknom) * ((p - t.potmin 0) * 2 ^ fd)
      ≤ (100 + t.brknom) * ((q - t.potmin 0) * 2 ^ fd) := by
    apply mul_le_mul_of_nonneg_left _ (by omega)
    exact mul_le_mul_of_nonneg_right (by omega) h2.le
  have := tdiv_mono (by omega : 0 < t.potmax 0 - t.potmin 0) hnum
  omega

theorem pedalOut_mono (fd : Nat) (t : Throttle) (p q : Int) (h0 : t.potmax 0 > t.potmin 0)
    (hbn : 0 < t.brknom) (hbm : t.brkmax ≤ 0) (hpq : p ≤ q) :
    t.pedalOut fd p ≤ t.pedalOut fd q := by
  have hP := t.pedalPercent_mono fd p q h0 hbn hpq
  have hneg : ∀ x : Int, x < 0 → Int.tdiv (-(x * t.brkmax)) t.brknom ≤ 0 := by
    intro x hx
    apply tdiv_nonpos_of_nonpos _ hbn.le
    have := mul_nonneg_of_nonpos_of_nonpos hx.le hbm
    omega
  unfold pedalOut
  split_ifs with hp hq hq
  · apply tdiv_mono hbn
    have := mul_le_mul_of_nonpos_right hP hbm
    omega
  · exact le_trans (hneg _ hp) (by omega)
  · omega
  · exact hP

theorem pedalOut_at_min (fd : Nat) (t : Throttle) (hbn : 0 < t.brknom) :
    t.pedalOut fd (t.potmin 0) = FP_FROMINT fd t.brkmax := by
  have h2 : (0 : Int) < 2 ^ fd := by positivity
  have hP : t.pedalPercent fd (t.potmin 0) = -(t.brknom * 2 ^ fd) := by
    simp [pedalPercent, FP_FROMINT, Int.zero_tdiv]
  have hneg : -(t.brknom * 2 ^ fd) < 0 := by
    have := mul_pos hbn h2
    omega
  have hnum : -(-(t.brknom * 2 ^ fd) * t.brkmax) = (t.brkmax * 2 ^ fd) * t.brknom := by ring
  rw [pedalOut, hP, if_pos hneg, hnum, Int.mul_tdiv_cancel _ (by omega : t.brknom ≠ 0)]
  rfl

theorem pedalOut_at_max (fd : Nat) (t : Throttle) (h0 : t.potmax 0 > t.potmin 0) :
    t.pedalOut fd (t.potmax 0) = FP_FROMINT fd 100 := by
  have hP := t.pedalPercent_at_max fd h0
  have hnn : ¬ (FP_FROMINT fd 100 < 0) := not_lt.mpr (FP_FROMINT_nonneg fd (by decide))
  rw [pedalOut, hP, if_neg hnn]

/-- C19: with the brake pedal inactive and the brake lever not engaged
(`pot2val ≤ potmin[1]`), assuming `potmax[0] > potmin[0]`, `brknom > 0` and `brkmax ≤ 0`: the
computed percentage lies in `[FP(-brknom), FP(100)]` for every `potval` in
`[potmin[0], potmax[0]]` and is returned unchanged when it is `≥ 0`; the returned value is
monotonically non-decreasing in `potval` over that span, equals `FP(brkmax)` at
`potval = potmin[0]` and `FP(100)` at `potval = potmax[0]`, and so always lies in
`[FP(brkmax), FP(100)]`. -/
theorem calcThrottle_pedal_map (fd : Nat) (t : Throttle) (pot2val : Int)
    (h0 : t.potmax 0 > t.potmin 0) (hbn : 0 < t.brknom) (hbm : t.brkmax ≤ 0)
    (hl : pot2val ≤ t.potmin 1) :
    (∀ potval, t.potmin 0 ≤ potval → potval ≤ t.potmax 0 →
      FP_FROMINT fd (-t.brknom) ≤ t.pedalPercent fd potval ∧
      t.pedalPercent fd potval ≤ FP_FROMINT fd 100 ∧
      (0 ≤ t.pedalPercent fd potval →
        CalcThrottle fd t potval pot2val false = some (t.pedalPercent fd potval)) ∧
      ∃ r, CalcThrottle fd t potval pot2val false = some r ∧
        FP_FROMINT fd t.brkmax ≤ r ∧ r ≤ FP_FROMINT fd 100) ∧
    (∀ p q, t.potmin 0 ≤ p → p ≤ q → q ≤ t.potmax 0 →
      ∃ r r', CalcThrottle fd t p pot2val false = some r ∧
        CalcThrottle fd t q pot2val false = some r' ∧ r ≤ r') ∧
    CalcThrottle fd t (t.potmin 0) pot2val false = some (FP_FROMINT fd t.brkmax) ∧
    CalcThrottle fd t (t.potmax 0) pot2val false = some (FP_FROMINT fd 100) := by
  have hrel : ∀ potval, CalcThrottle fd t potval pot2val false = some (t.pedalOut fd potval) :=
    fun potval => t.calcThrottle_released fd potval pot2val (by omega) (by omega) hl
  refine ⟨?_, ?_, ?_, ?_⟩
  · intro potval hlo hhi
    have h1 := t.pedalPercent_mono fd _ _ h0 hbn hlo
    have h2 := t.pedalPercent_mono fd _ _ h0 hbn hhi
    rw [t.pedalPercent_at_max fd h0] at h2
    have hmin : t.pedalPercent fd (t.potmin 0) = FP_FROMINT fd (-t.brknom) := by
      simp [pedalPercent, FP_FROMINT, Int.zero_tdiv]
    rw [hmin] at h1
    refine ⟨h1, h2, ?_, ?_⟩
    · intro hnn
      rw [hrel, pedalOut, if_neg (not_lt.mpr hnn)]
    · refine ⟨_, hrel potval, ?_, ?_⟩
      · rw [← t.pedalOut_at_min fd hbn]
        exact t.pedalOut_mono fd _ _ h0 hbn hbm hlo
      · rw [← t.pedalOut_at_max fd h0]
        exact t.pedalOut_mono fd _ _ h0 hbn hbm hhi
  · intro p q _ hpq _
    exact ⟨_, _, hrel p, hrel q, t.pedalOut_mono fd p q h0 hbn hbm hpq⟩
  · rw [hrel, t.pedalOut_at_min fd hbn]
  · rw [hrel, t.pedalOut_at_max fd h0]

theorem calcThrottle_pedal_map_witness :
    calib100_900.potmax 0 > calib100_900.potmin 0 ∧ 0 < calib100_900.brknom ∧
    calib100_900.brkmax ≤ 0 ∧ (0 : Int) ≤ calib100_900.potmin 1 ∧
    CalcThrottle 5 calib100_900 (calib100_900.potmin 0) 0 false
      = some (FP_FROMINT 5 calib100_900.brkmax) ∧
    CalcThrottle 5 calib100_900 (calib100_900.potmax 0) 0 false = some (FP_FROMINT 5 100) :=
  ⟨by decide, by decide, by decide, by decide,
    (calcThrottle_pedal_map 5 calib100_900 0 (by decide) (by decide) (by decide)
      (by decide)).2.2⟩

end Throttle

/-!
Field-oriented PWM generation: shallow embedding of `src/pwmgeneration-foc.cpp`
(class `PwmGeneration`).

* File-static and function-static variables are fields of explicit state records.
* Values read from collaborators that are not part of the file (parameter store, encoder,
  analog inputs, coordinate transform) are arguments.
* Calls to collaborators whose effect matters to a property are recorded in the state.
-/

/-- Modelled from the spec: `my_fp.h` is not among the sources; `FP_TOINT(a)` converts fixed
point to integer by `a >> FRAC_DIGITS` (arithmetic shift). -/
def FP_TOINT (fd : Nat) (a : Int) : Int := a >>> fd

/-- Modelled from the spec: `my_math.h` is not among the sources; `IIRFILTER(l,n,c)` is the
single-pole low-pass filter `(((n) + ((l) << (c)) - (l)) >> (c))`. -/
def IIRFILTER (l n : Int) (c : Nat) : Int := (n + l * 2 ^ c - l) >>> c

namespace PwmGeneration

/-! ## Offset calibration -/

/-- The function statics `il1Avg`, `il2Avg`, `samples` of `RunOffsetCalibration`, and the
arguments of the `SetCurrentOffset` calls made so far, oldest first. -/
structure OffsetCal where
  il1Avg : Int
  il2Avg : Int
  samples : Int
  offsetCalls : List (Int × Int)
  deriving DecidableEq, Repr

/-- The local constant `offsetSamples = 512`. -/
def offsetSamples : Int := 512

/-- Embedding of `void PwmGeneration::RunOffsetCalibration()`.  `raw1` and `raw2` are the
values `AnaIn::il1.Get()` and `AnaIn::il2.Get()` return in this call; they are read in the
accumulating branch only. -/
def RunOffsetCalibration (s : OffsetCal) (raw1 raw2 : Int) : OffsetCal :=
  if s.samples < offsetSamples then
    { s with il1Avg := s.il1Avg + raw1, il2Avg := s.il2Avg + raw2, samples := s.samples + 1 }
  else
    { il1Avg := 0, il2Avg := 0, samples := 0
      offsetCalls := s.offsetCalls ++
        [(Int.tdiv s.il1Avg offsetSamples, Int.tdiv s.il2Avg offsetSamples)] }

/-- The reset state of the calibration: sums 0, sample count 0. -/
def OffsetCal.reset (calls : List (Int × Int)) : OffsetCal :=
  { il1Avg := 0, il2Avg := 0, samples := 0, offsetCalls := calls }

/-- Consecutive calls of `RunOffsetCalibration`, one per element of `raws`. -/
def runOffsetCalibration (s : OffsetCal) (raws : List (Int × Int)) : OffsetCal :=
  raws.foldl (fun s x => RunOffsetCalibration s x.1 x.2) s

theorem runOffsetCalibration_accumulate (raws : List (Int × Int)) :
    ∀ s : OffsetCal, 0 ≤ s.samples → s.samples + raws.length ≤ 512 →
      runOffsetCalibration s raws =
        { il1Avg := s.il1Avg + (raws.map Prod.fst).sum
          il2Avg := s.il2Avg + (raws.map Prod.snd).sum
          samples := s.samples + raws.length
          offsetCalls := s.offsetCalls } := by
  induction raws with
  | nil => intro s _ _; simp [runOffsetCalibration]
  | cons x xs ih =>
    intro s h0 hlen
    simp only [List.length_cons, Nat.cast_add, Nat.cast_one] at hlen
    have hlt : s.samples < offsetSamples := by unfold offsetSamples; omega
    have hstep : runOffsetCalibration s (x :: xs)
        = runOffsetCalibration (RunOffsetCalibration s x.1 x.2) xs := rfl
    rw [hstep, ih _ (by simp [RunOffsetCalibration, hlt]; omega)
      (by simp [RunOffsetCalibration, hlt]; omega)]
    simp only [RunOffsetCalibration, hlt, if_true, List.map_cons, List.sum_cons,
      List.length_cons, Nat.cast_add, Nat.cast_one, OffsetCal.mk.injEq, and_true]
    refine ⟨by ring, by ring, by ring⟩

theorem runOffsetCalibration_samples_range (raws : List (Int × Int)) :
    ∀ s : OffsetCal, 0 ≤ s.samples ∧ s.samples ≤ 512 →
      0 ≤ (runOffsetCalibration s raws).samples ∧
        (runOffsetCalibration s raws).samples ≤ 512 := by
  induction raws with
  | nil => intro s h; exact h
  | cons x xs ih =>
    intro s h
    have hstep : runOffsetCalibration s (x :: xs)
        = runOffsetCalibration (RunOffsetCalibration s x.1 x.2) xs := rfl
    rw [hstep]
    apply ih
    unfold RunOffsetCalibration offsetSamples
    split_ifs with hlt
    · show 0 ≤ s.samples + 1 ∧ s.samples + 1 ≤ 512
      omega
    · show (0 : Int) ≤ 0 ∧ (0 : Int) ≤ 512
      omega

/-- C18: starting from the reset state, each of the next 512 calls adds one raw sample of
each channel to its sum and increments the count without a `SetCurrentOffset` call; the 513th
call takes no sample, calls `SetCurrentOffset` with `sum1/512` and `sum2/512` (truncated means
of exactly those 512 samples) and returns to sums 0, count 0.  In every reachable state
`0 ≤ samples ≤ 512`, and `SetCurrentOffset` is called only by calls entered with
`samples = 512`. -/
theorem offsetCalibration_cycle (calls : List (Int × Int)) (raws : List (Int × Int))
    (hlen : raws.length = 512) :
    (∀ k : Nat, k ≤ 512 →
      runOffsetCalibration (OffsetCal.reset calls) (raws.take k) =
        { il1Avg := ((raws.take k).map Prod.fst).sum
          il2Avg := ((raws.take k).map Prod.snd).sum
          samples := k
          offsetCalls := calls }) ∧
    (∀ raw1 raw2 : Int,
      RunOffsetCalibration (runOffsetCalibration (OffsetCal.reset calls) raws) raw1 raw2 =
        { il1Avg := 0, il2Avg := 0, samples := 0
          offsetCalls := calls ++
            [(Int.tdiv (raws.map Prod.fst).sum 512, Int.tdiv (raws.map Prod.snd).sum 512)] }) ∧
    (∀ (more : List (Int × Int)),
      0 ≤ (runOffsetCalibration (OffsetCal.reset calls) more).samples ∧
      (runOffsetCalibration (OffsetCal.reset calls) more).samples ≤ 512) ∧
    (∀ (more : List (Int × Int)) (raw1 raw2 : Int),
      (RunOffsetCalibration (runOffsetCalibration (OffsetCal.reset calls) more) raw1 raw2).offsetCalls
          ≠ (runOffsetCalibration (OffsetCal.reset calls) more).offsetCalls →
        (runOffsetCalibration (OffsetCal.reset calls) more).samples = 512) := by
  refine ⟨?_, ?_, ?_, ?_⟩
  · intro k hk
    have hl : (raws.take k).length = k := by
      rw [List.length_take, hlen]; exact min_eq_left hk
    have h := runOffsetCalibration_accumulate (raws.take k) (OffsetCal.reset calls)
      (le_refl 0) (by simp only [OffsetCal.reset, hl]; omega)
    rw [h]
    simp [OffsetCal.reset, hl]
  · intro raw1 raw2
    have h := runOffsetCalibration_accumulate raws (OffsetCal.reset calls)
      (le_refl 0) (by simp only [OffsetCal.reset, hlen]; omega)
    rw [h]
    simp [RunOffsetCalibration, OffsetCal.reset, offsetSamples, hlen]
  · intro more
    exact runOffsetCalibration_samples_range more _ (by simp [OffsetCal.reset])
  · intro more raw1 raw2 hne
    have hr := runOffsetCalibration_samples_range more (OffsetCal.reset calls)
      (by simp [OffsetCal.reset])
    by_contra hs
    apply hne
    have hlt : (runOffsetCalibration (OffsetCal.reset calls) more).samples < offsetSamples := by
      unfold offsetSamples; omega
    simp [RunOffsetCalibration, hlt]

theorem offsetCalibration_cycle_witness :
    (List.replicate 512 ((2048 : Int), (2050 : Int))).length = 512 ∧
    ∀ raw1 raw2 : Int,
      RunOffsetCalibration
          (runOffsetCalibration (OffsetCal.reset []) (List.replicate 512 (2048, 2050)))
          raw1 raw2 =
        { il1Avg := 0, il2Avg := 0, samples := 0
          offsetCalls := [] ++
            [(Int.tdiv ((List.replicate 512 ((2048 : Int), (2050 : Int))).map Prod.fst).sum 512,
              Int.tdiv ((List.replicate 512 ((2048 : Int), (2050 : Int))).map Prod.snd).sum 512)] } :=
  ⟨List.length_replicate _ _,
    (offsetCalibration_cycle [] (List.replicate 512 (2048, 2050))
      (List.length_replicate _ _)).2.1⟩

/-! ## Overcurrent trip -/

/-- The operating modes (`MOD_...` constants of the parameter `opmode`). -/
inductive OpMode where
  | MOD_OFF
  | MOD_RUN
  | MOD_MANUAL
  | MOD_BOOST
  | MOD_BUCK
  | MOD_ACHEAT
  deriving DecidableEq, Repr

/-- Fault codes handed to `ErrorMessage::Post`; only the overcurrent code is posted by the
embedded code. -/
inductive ErrorCode where
  | ERR_OVERCURRENT_SW
  | other (code : Nat)
  deriving DecidableEq, Repr

/-- The state `ProcessCurrents` reads and writes: the stored parameter `opmode`, the flag
`tripped`, the file static `initwait`, the faults posted so far (oldest first), and the
published values `id`, `iq`, `il1`, `il2`. -/
structure CurrentState where
  opmode : OpMode
  tripped : Bool
  initwait : Int
  posted : List ErrorCode
  id : Int
  iq : Int
  il1 : Int
  il2 : Int
  deriving DecidableEq, Repr

/-- Embedding of `s32fp PwmGeneration::ProcessCurrents(s32fp& id, s32fp& iq)`.  `ParkClarke`
is the coordinate transform returning `(FOC::id, FOC::iq)`, `swapCurrents` the test
`(pinswap & SWAP_CURRENTS) > 0`, `ocurlimParam` the parameter `ocurlim`, and `il1`, `il2` the
two values returned by `GetCurrent`.  The out-parameters `id`, `iq` are the fields of the
result; the C return value is always 0. -/
def ProcessCurrents (ParkClarke : Int → Int → Int × Int) (swapCurrents : Bool)
    (ocurlimParam il1 il2 : Int) (s : CurrentState) : CurrentState :=
  let ocurlim := ABS ocurlimParam
  let initwait := if s.initwait > 0 then s.initwait - 1 else s.initwait
  let dq := if swapCurrents then ParkClarke il2 il1 else ParkClarke il1 il2
  let s₁ : CurrentState :=
    { s with initwait := initwait, id := dq.1, iq := dq.2, il1 := il1, il2 := il2 }
  if ABS il1 > ocurlim ∨ ABS il2 > ocurlim then
    { s₁ with opmode := OpMode.MOD_OFF, tripped := true
              posted := s₁.posted ++ [ErrorCode.ERR_OVERCURRENT_SW] }
  else
    s₁

/-- C14: for every pair of phase currents `il1`, `il2` and every configured `ocurlim`, one
call of `ProcessCurrents` sets the stored operating mode to `MOD_OFF`, sets `tripped` and
posts exactly one `ERR_OVERCURRENT_SW` fault iff `|il1| > |ocurlim|` or `|il2| > |ocurlim|`;
otherwise (equality with the limit included) mode and `tripped` are unchanged and no fault is
posted. -/
theorem processCurrents_trip (ParkClarke : Int → Int → Int × Int) (swapCurrents : Bool)
    (ocurlim il1 il2 : Int) (s : CurrentState) :
    ((|il1| > |ocurlim| ∨ |il2| > |ocurlim|) →
      (ProcessCurrents ParkClarke swapCurrents ocurlim il1 il2 s).opmode = OpMode.MOD_OFF ∧
      (ProcessCurrents ParkClarke swapCurrents ocurlim il1 il2 s).tripped = true ∧
      (ProcessCurrents ParkClarke swapCurrents ocurlim il1 il2 s).posted
        = s.posted ++ [ErrorCode.ERR_OVERCURRENT_SW]) ∧
    (¬ (|il1| > |ocurlim| ∨ |il2| > |ocurlim|) →
      (ProcessCurrents ParkClarke swapCurrents ocurlim il1 il2 s).opmode = s.opmode ∧
      (ProcessCurrents ParkClarke swapCurrents ocurlim il1 il2 s).tripped = s.tripped ∧
      (ProcessCurrents ParkClarke swapCurrents ocurlim il1 il2 s).posted = s.posted) ∧
    ((ProcessCurrents ParkClarke swapCurrents ocurlim il1 il2 s).posted ≠ s.posted ↔
      (|il1| > |ocurlim| ∨ |il2| > |ocurlim|)) := by
  by_cases h : |il1| > |ocurlim| ∨ |il2| > |ocurlim|
  · have h' : ABS il1 > ABS ocurlim ∨ ABS il2 > ABS ocurlim := by
      simpa only [ABS_eq_abs] using h
    simp [ProcessCurrents, h, h']
  · have h' : ¬ (ABS il1 > ABS ocurlim ∨ ABS il2 > ABS ocurlim) := by
      simpa only [ABS_eq_abs] using h
    simp [ProcessCurrents, h, h']

/-! ## Angle and frequency synchronizer -/

/-- The parameters and statics `CalcNextAngleSync` reads: `syncofs`, `syncadv`, `syncadvOffs`
(integer parameters), `syncadvEnd`, `syncadvStart` (fixed-point parameters), `polePairRatio`,
`fslip` and `pwmfrq`. -/
structure SyncParams where
  syncofs : Int
  syncadv : Int
  syncadvOffs : Int
  syncadvEnd : Int
  syncadvStart : Int
  polePairRatio : Int
  fslip : Int
  pwmfrq : Int

/-- The state `CalcNextAngleSync` updates: `angle` (modelled from the spec: it wraps modulo
one electrical revolution, 2^16 digits), `frq`, the function static `frqFiltered`, and the
published values `syncAdvFinal`, `syncOffFinal`. -/
structure SyncState where
  angle : Int
  frq : Int
  frqFiltered : Int
  syncAdvFinal : Int
  syncOffFinal : Int
  deriving DecidableEq, Repr

/-- What the encoder reports in one PWM period: `SeenNorthSignal()`, `GetRotorAngle()`,
`GetRotorFrequency()`. -/
structure EncoderSample where
  seenNorth : Bool
  rotorAngle : Int
  rotorFrequency : Int

/-- The macro `FRQ_TO_ANGLE(frq)`, `FP_TOINT((frq << SineCore::BITS) / pwmfrq)` with
`SineCore::BITS = 16`; undefined for `pwmfrq = 0`. -/
def FRQ_TO_ANGLE (fd : Nat) (pwmfrq frq : Int) : Option Int :=
  (cdiv (frq * 2 ^ 16) pwmfrq).map (FP_TOINT fd)

/-- Embedding of `void PwmGeneration::CalcNextAngleSync(int dir)`.  The `uint16_t` values
`syncOfs`, `rotorAngle` and `angle` are reduced modulo 2^16.  In the interpolation branch
`syncadvStart < frq ≤ syncadvEnd`, so its divisor is positive. -/
def CalcNextAngleSync (fd : Nat) (p : SyncParams) (dir : Int) (e : EncoderSample)
    (s : SyncState) : Option SyncState :=
  let frqFiltered := IIRFILTER s.frqFiltered s.frq 8
  if e.seenNorth then
    let syncOfs := p.syncofs % 65536
    let rotorAngle := e.rotorAngle % 65536
    let syncadv := p.syncadv
    let syncadvOff := p.syncadvOffs
    let syncadv :=
      if s.frq > p.syncadvEnd then
        syncadv - syncadvOff
      else if s.frq > p.syncadvStart then
        syncadv - Int.tdiv (syncadvOff * (s.frq - p.syncadvStart))
          (p.syncadvEnd - p.syncadvStart)
      else
        syncadv
    let syncAdvFinal := syncadv
    let syncadv := frqFiltered * syncadv
    let syncadv := MAX 0 syncadv
    let syncOfs := (syncOfs + FP_TOINT fd (dir * syncadv)) % 65536
    some { angle := (p.polePairRatio * rotorAngle + syncOfs) % 65536
           frq := p.polePairRatio * e.rotorFrequency
           frqFiltered := frqFiltered
           syncAdvFinal := syncAdvFinal
           syncOffFinal := syncOfs }
  else do
    let slip ← FRQ_TO_ANGLE fd p.pwmfrq p.fslip
    some { s with frqFiltered := frqFiltered
                  frq := p.fslip
                  angle := (s.angle + dir * slip) % 65536 }

/-- Consecutive calls of `CalcNextAngleSync` with constant `dir` and parameters, one per
encoder sample. -/
def runSync (fd : Nat) (p : SyncParams) (dir : Int) :
    List EncoderSample → SyncState → Option SyncState
  | [], s => some s
  | e :: es, s => (CalcNextAngleSync fd p dir e s).bind (runSync fd p dir es)

/-- The slip increment `FRQ_TO_ANGLE(fslip)` for a non-zero PWM frequency. -/
def slipIncrement (fd : Nat) (p : SyncParams) : Int :=
  FP_TOINT fd (Int.tdiv (p.fslip * 2 ^ 16) p.pwmfrq)

theorem calcNextAngleSync_slip (fd : Nat) (p : SyncParams) (dir : Int) (e : EncoderSample)
    (s : SyncState) (hp : p.pwmfrq ≠ 0) (hn : e.seenNorth = false) :
    CalcNextAngleSync fd p dir e s =
      some { s with frqFiltered := IIRFILTER s.frqFiltered s.frq 8
                    frq := p.fslip
                    angle := (s.angle + dir * slipIncrement fd p) % 65536 } := by
  simp [CalcNextAngleSync, hn, FRQ_TO_ANGLE, cdiv_of_ne hp, slipIncrement]

/-- After a slip call the frequency is `fslip` and the angle is a 16-bit value. -/
def SlipInv (p : SyncParams) (s : SyncState) : Prop :=
  s.frq = p.fslip ∧ 0 ≤ s.angle ∧ s.angle < 65536

theorem runSync_slip_angle (fd : Nat) (p : SyncParams) (dir : Int) (hp : p.pwmfrq ≠ 0)
    (es : List EncoderSample) :
    (∀ e ∈ es, e.seenNorth = false) → ∀ s : SyncState,
      ∃ s', runSync fd p dir es s = some s' ∧
        s'.angle % 65536 = (s.angle + es.length * (dir * slipIncrement fd p)) % 65536 ∧
        (SlipInv p s ∨ es ≠ [] → SlipInv p s') := by
  induction es with
  | nil =>
    intro _ s
    refine ⟨s, rfl, by simp, ?_⟩
    rintro (h | h)
    · exact h
    · exact absurd rfl h
  | cons e es ih =>
    intro hall s
    have he : e.seenNorth = false := hall e (List.mem_cons_self _ _)
    have hstep := calcNextAngleSync_slip fd p dir e s hp he
    obtain ⟨s', hrun, hang, hinv⟩ :=
      ih (fun x hx => hall x (List.mem_cons_of_mem _ hx))
        { s with frqFiltered := IIRFILTER s.frqFiltered s.frq 8
                 frq := p.fslip
                 angle := (s.angle + dir * slipIncrement fd p) % 65536 }
    refine ⟨s', ?_, ?_, ?_⟩
    · simp only [runSync, hstep, Option.some_bind]
      exact hrun
    · rw [hang]
      simp only [List.length_cons, Nat.cast_add, Nat.cast_one]
      rw [Int.emod_add_emod]
      congr 1
      ring
    · intro _
      apply hinv
      left
      exact ⟨rfl, Int.emod_nonneg _ (by decide), Int.emod_lt_of_pos _ (by decide)⟩

/-- C13: starting from any state, if `SeenNorthSignal()` is false on `N` consecutive calls of
`CalcNextAngleSync` with constant `dir`, `fslip` and (non-zero) `pwmfrq`, then after those
calls `angle` equals the initial angle plus `N * dir * FRQ_TO_ANGLE(fslip)` modulo 2^16 and,
after each call, `frq` equals `fslip`; a second run from any state with the same initial
angle, whatever its `frq` and filtered frequency, ends with the same angle and `frq`. -/
theorem slip_ramp (fd : Nat) (p : SyncParams) (dir : Int) (es : List EncoderSample)
    (s : SyncState) (hp : p.pwmfrq ≠ 0) (hn : ∀ e ∈ es, e.seenNorth = false) :
    FRQ_TO_ANGLE fd p.pwmfrq p.fslip = some (slipIncrement fd p) ∧
    ∃ s', runSync fd p dir es s = some s' ∧
      s'.angle % 65536 = (s.angle + es.length * (dir * slipIncrement fd p)) % 65536 ∧
      (es ≠ [] →
        s'.angle = (s.angle + es.length * (dir * slipIncrement fd p)) % 65536 ∧
        s'.frq = p.fslip) ∧
      ∀ s₂ : SyncState, s₂.angle = s.angle →
        ∃ s₂', runSync fd p dir es s₂ = some s₂' ∧
          s₂'.angle % 65536 = s'.angle % 65536 ∧
          (es ≠ [] → s₂'.angle = s'.angle ∧ s₂'.frq = s'.frq) := by
  refine ⟨by simp [FRQ_TO_ANGLE, cdiv_of_ne hp, slipIncrement], ?_⟩
  obtain ⟨s', hrun, hang, hinv⟩ := runSync_slip_angle fd p dir hp es hn s
  have hex : es ≠ [] → s'.angle = (s.angle + es.length * (dir * slipIncrement fd p)) % 65536 ∧
      s'.frq = p.fslip := by
    intro hne
    obtain ⟨hf, h0, h1⟩ := hinv (Or.inr hne)
    rw [← hang, Int.emod_eq_of_lt h0 h1]
    exact ⟨rfl, hf⟩
  refine ⟨s', hrun, hang, hex, ?_⟩
  intro s₂ h₂
  obtain ⟨s₂', hrun₂, hang₂, hinv₂⟩ := runSync_slip_angle fd p dir hp es hn s₂
  refine ⟨s₂', hrun₂, by rw [hang₂, hang, h₂], ?_⟩
  intro hne
  obtain ⟨hf, h0, h1⟩ := hinv (Or.inr hne)
  obtain ⟨hf₂, h0₂, h1₂⟩ := hinv₂ (Or.inr hne)
  refine ⟨?_, by rw [hf, hf₂]⟩
  rw [← Int.emod_eq_of_lt h0 h1, ← Int.emod_eq_of_lt h0₂ h1₂, hang₂, hang, h₂]

/-- Parameters used as a test point: slip frequency 2 Hz and PWM frequency 8800 Hz, in
fixed point with 5 fraction digits. -/
def slipParams : SyncParams :=
  { syncofs := 0, syncadv := 10, syncadvOffs := 5, syncadvEnd := 6400, syncadvStart := 3200
    polePairRatio := 2, fslip := 64, pwmfrq := 8800 }

/-- Three periods without a north signal. -/
def noNorth3 : List EncoderSample :=
  [⟨false, 100, 0⟩, ⟨false, 200, 0⟩, ⟨false, 300, 0⟩]

theorem slip_ramp_witness :
    slipParams.pwmfrq ≠ 0 ∧ (∀ e ∈ noNorth3, e.seenNorth = false) ∧
    FRQ_TO_ANGLE 5 slipParams.pwmfrq slipParams.fslip = some (slipIncrement 5 slipParams) ∧
    ∃ s', runSync 5 slipParams (-1) noNorth3 ⟨65535, 7, 9, 0, 0⟩ = some s' ∧
      s'.angle = (65535 + (noNorth3.length : Int) * (-1 * slipIncrement 5 slipParams)) % 65536 ∧
      s'.frq = slipParams.fslip :=
  have hp : slipParams.pwmfrq ≠ 0 := by decide
  have hn : ∀ e ∈ noNorth3, e.seenNorth = false := by decide
  match slip_ramp 5 slipParams (-1) noNorth3 ⟨65535, 7, 9, 0, 0⟩ hp hn with
  | ⟨h₁, s', hrun, _, hex, _⟩ => ⟨hp, hn, h₁, s', hrun, hex (List.cons_ne_nil _ _)⟩

/-! ## Torque-to-current mapper

`SetTorquePercent` computes in C `float`.  Float values are modelled as exact rationals: no
rounding of float operations is modelled.  Conversions between float and fixed point follow
the macros. -/

/-- Modelled from the spec: `my_fp.h` is not among the sources; `FP_FROMFLT(a)` is
`(s32fp)((a) * FRAC_FAC)`, the scaled value truncated towards zero. -/
def FP_FROMFLT (fd : Nat) (a : ℚ) : Int := Int.tdiv (a * 2 ^ fd).num (a * 2 ^ fd).den

/-- Modelled from the spec: `my_fp.h` is not among the sources; `FP_TOFLOAT(a)` is
`(float)(a) / FRAC_FAC`. -/
def FP_TOFLOAT (fd : Nat) (a : Int) : ℚ := (a : ℚ) / 2 ^ fd

/-- Modelled from the spec: `my_fp.h` is not among the sources; `FP_DIV(a,b)` is the
fixed-point quotient with explicit pre-scale, `((a) << FRAC_DIGITS) / (b)`; undefined for
`b = 0`. -/
def FP_DIV (fd : Nat) (a b : Int) : Option Int := cdiv (a * 2 ^ fd) b

/-- The macro `MIN` on float arguments. -/
def MINf (a b : ℚ) : ℚ := if a < b then a else b

/-- The macro `MAX` on float arguments. -/
def MAXf (a b : ℚ) : ℚ := if a > b then a else b

/-- The macro `ABS` on a float argument. -/
def ABSf (a : ℚ) : ℚ := if a < 0 then -a else a

/-- Newton iteration for the integer square root, from above, with a step budget. -/
def sqrtIter (n : Nat) : Nat → Nat → Nat
  | 0, x => x
  | fuel + 1, x => if x * x ≤ n then x else sqrtIter n fuel ((x + n / x) / 2)

/-- Modelled from the spec: `fp_sqrt` is not among the sources; it is the true magnitude, the
square root of a fixed-point radicand in fixed point, here rounded down:
`⌊√(rad * 2^FRAC_DIGITS)⌋` (64 Newton steps suffice for 32-bit radicands). -/
def fp_sqrt (fd : Nat) (rad : Int) : Int :=
  sqrtIter (rad.toNat * 2 ^ fd) 64 (rad.toNat * 2 ^ fd)

/-- Modelled from the spec: the macro `SIGN` is not among the sources; it yields -1 for a
negative argument and 1 for a positive one (taken as 1 at zero). -/
def SIGN (a : ℚ) : Int := if a < 0 then -1 else 1

/-- The parameters `SetTorquePercent` reads: the field-weakening breakpoints (fixed point),
`throtcur`, `idiqsplit`, the field-weakening currents (float), `overdrive` and `fwfrqflt`
(integer). -/
structure TorqueParams where
  fwFrqStart : Int
  fwFrqMid : Int
  fwFrqEnd : Int
  throtcur : ℚ
  idiqsplit : ℚ
  fwIdMid : ℚ
  fwIdEnd : ℚ
  fwIqMid : ℚ
  fwIqEnd : ℚ
  overdrive : Int
  fwfrqflt : Nat

/-- The field-weakening schedule of `SetTorquePercent` (the `if` chain on `frqFiltered`):
the pair `(fwId, fwIq)`. -/
def fwSchedule (p : TorqueParams) (frqFiltered : Int) : ℚ × ℚ :=
  if frqFiltered > p.fwFrqEnd then
    (p.fwIdEnd, p.fwIqEnd)
  else if frqFiltered > p.fwFrqMid then
    (p.fwIdMid + (p.fwIdEnd - p.fwIdMid) * ((frqFiltered - p.fwFrqMid : Int) : ℚ)
        / ((p.fwFrqEnd - p.fwFrqMid : Int) : ℚ),
     p.fwIqMid + (p.fwIqEnd - p.fwIqMid) * ((frqFiltered - p.fwFrqMid : Int) : ℚ)
        / ((p.fwFrqEnd - p.fwFrqMid : Int) : ℚ))
  else if frqFiltered > p.fwFrqStart then
    (p.fwIdMid * ((frqFiltered - p.fwFrqStart : Int) : ℚ)
        / ((p.fwFrqMid - p.fwFrqStart : Int) : ℚ),
     p.fwIqMid * ((frqFiltered - p.fwFrqStart : Int) : ℚ)
        / ((p.fwFrqMid - p.fwFrqStart : Int) : ℚ))
  else
    (0, 0)

/-- What `SetTorquePercent` leaves behind: the function static `frqFiltered`, the published
values `ifw`, `ifwq`, `iAbs`, `norm`, `is`, `idReq`, `iqReq` (the unscaled `iq`), the local
unscaled `id`, and the references handed to `qController.SetRef` and `dController.SetRef`. -/
structure TorqueRefs where
  frqFiltered : Int
  ifw : ℚ
  ifwq : ℚ
  id : ℚ
  iq : ℚ
  is : ℚ
  iAbs : Int
  norm : Int
  idReq : Int
  iqRef : Int
  idRef : Int
  deriving DecidableEq

/-- Embedding of `void PwmGeneration::SetTorquePercent(float torquePercent)`.  `sqrt` stands
for `fp_sqrt` and `sign` for the macro `SIGN`; `frq` is the current electrical frequency and
`frqFiltered` the function static.  `none` when `FP_DIV` divides by `iAbs = 0`. -/
def SetTorquePercent (fd : Nat) (sqrt : Int → Int) (sign : ℚ → Int) (p : TorqueParams)
    (frq frqFiltered : Int) (torquePercent : ℚ) : Option TorqueRefs :=
  let is := p.throtcur * torquePercent
  let frqFiltered := IIRFILTER frqFiltered frq p.fwfrqflt
  let fwId := (fwSchedule p frqFiltered).1
  let fwIq := (fwSchedule p frqFiltered).2
  let id := p.idiqsplit * is / 100
  let id := -ABSf id - fwId
  let id := MAXf id (-100 * p.throtcur)
  let iq := (100 - p.idiqsplit) * is / 100
  let iq := ABSf (iq + fwIq)
  let iq := MINf iq (100 * p.throtcur)
  let is := is + (ABSf fwId + ABSf fwIq)
  let is := MINf is (p.overdrive * p.throtcur)
  let iAbs := sqrt (FP_FROMFLT fd (iq * iq) + FP_FROMFLT fd (id * id))
  (if FP_TOFLOAT fd iAbs > is then FP_DIV fd (FP_FROMFLT fd is) iAbs
    else some (FP_FROMFLT fd 1)).map fun norm =>
    { frqFiltered := frqFiltered
      ifw := fwId
      ifwq := fwIq
      id := id
      iq := iq
      is := is
      iAbs := iAbs
      norm := norm
      idReq := FP_MUL fd (FP_FROMFLT fd id) norm
      iqRef := sign torquePercent * ABS (FP_MUL fd (FP_FROMFLT fd (ABSf iq)) norm)
      idRef := FP_MUL fd (FP_FROMFLT fd id) norm }

/-- Mapper settings used as test points: 1 A per percent, even d/q split, field-weakening
breakpoints at 100, 200 and 300 Hz with a d-current of 8 A from the mid point on, no
q-component, overdrive factor 100, no frequency filtering. -/
def mapperParams : TorqueParams :=
  { fwFrqStart := 3200, fwFrqMid := 6400, fwFrqEnd := 9600
    throtcur := 1, idiqsplit := 50
    fwIdMid := 8, fwIdEnd := 8, fwIqMid := 0, fwIqEnd := 0
    overdrive := 100, fwfrqflt := 0 }

/-- The start-mid segment of the schedule as the claim words it:
`(fwIdMid, fwIqMid) * (f - start) / (mid - start)`. -/
def fwRamp (p : TorqueParams) (f : ℚ) : ℚ × ℚ :=
  (p.fwIdMid * (f - p.fwFrqStart) / (p.fwFrqMid - p.fwFrqStart),
   p.fwIqMid * (f - p.fwFrqStart) / (p.fwFrqMid - p.fwFrqStart))

/-- The mid-end segment of the schedule as the claim words it:
mid value `+ (end value - mid value) * (f - mid) / (end - mid)`. -/
def fwMidEnd (p : TorqueParams) (f : ℚ) : ℚ × ℚ :=
  (p.fwIdMid + (p.fwIdEnd - p.fwIdMid) * (f - p.fwFrqMid) / (p.fwFrqEnd - p.fwFrqMid),
   p.fwIqMid + (p.fwIqEnd - p.fwIqMid) * (f - p.fwFrqMid) / (p.fwFrqEnd - p.fwFrqMid))

/-- C15: over exact rational arithmetic and with `fwFrqStart < fwFrqMid < fwFrqEnd`, the
field-weakening pair `(fwId, fwIq)` computed by `SetTorquePercent` is `(0, 0)` for
`f ≤ start`, the start-mid ramp for `start < f ≤ mid`, the mid-end interpolation for
`mid < f ≤ end` and the end values for `f > end`; the segments agree at the breakpoints: at
`f = mid` both give `(fwIdMid, fwIqMid)`, at `f = start` the ramp gives 0, at `f = end` the
mid-end segment gives `(fwIdEnd, fwIqEnd)`. -/
theorem fwSchedule_piecewise (p : TorqueParams) (h₁ : p.fwFrqStart < p.fwFrqMid)
    (h₂ : p.fwFrqMid < p.fwFrqEnd) :
    (∀ f : Int, f ≤ p.fwFrqStart → fwSchedule p f = (0, 0)) ∧
    (∀ f : Int, p.fwFrqStart < f → f ≤ p.fwFrqMid → fwSchedule p f = fwRamp p f) ∧
    (∀ f : Int, p.fwFrqMid < f → f ≤ p.fwFrqEnd → fwSchedule p f = fwMidEnd p f) ∧
    (∀ f : Int, p.fwFrqEnd < f → fwSchedule p f = (p.fwIdEnd, p.fwIqEnd)) ∧
    fwRamp p p.fwFrqMid = (p.fwIdMid, p.fwIqMid) ∧
    fwMidEnd p p.fwFrqMid = (p.fwIdMid, p.fwIqMid) ∧
    fwRamp p p.fwFrqStart = (0, 0) ∧
    fwMidEnd p p.fwFrqEnd = (p.fwIdEnd, p.fwIqEnd) ∧
    fwSchedule p p.fwFrqStart = (0, 0) ∧
    fwSchedule p p.fwFrqMid = (p.fwIdMid, p.fwIqMid) ∧
    fwSchedule p p.fwFrqEnd = (p.fwIdEnd, p.fwIqEnd) := by
  have d₁ : ((p.fwFrqMid : ℚ) - p.fwFrqStart) ≠ 0 := by
    have : (p.fwFrqStart : ℚ) < p.fwFrqMid := by exact_mod_cast h₁
    linarith
  have d₂ : ((p.fwFrqEnd : ℚ) - p.fwFrqMid) ≠ 0 := by
    have : (p.fwFrqMid : ℚ) < p.fwFrqEnd := by exact_mod_cast h₂
    linarith
  have hramp : ∀ f : Int, p.fwFrqStart < f → f ≤ p.fwFrqMid → fwSchedule p f = fwRamp p f := by
    intro f hs hm
    have c₁ : ¬ (f > p.fwFrqEnd) := by omega
    have c₂ : ¬ (f > p.fwFrqMid) := by omega
    simp only [fwSchedule, c₁, c₂, if_false, gt_iff_lt, hs, if_true, fwRamp, Int.cast_sub]
  have hmid : ∀ f : Int, p.fwFrqMid < f → f ≤ p.fwFrqEnd → fwSchedule p f = fwMidEnd p f := by
    intro f hm he
    have c₁ : ¬ (f > p.fwFrqEnd) := by omega
    simp only [fwSchedule, c₁, if_false, gt_iff_lt, hm, if_true, fwMidEnd, Int.cast_sub]
  have r₁ : fwRamp p p.fwFrqMid = (p.fwIdMid, p.fwIqMid) := by
    simp only [fwRamp, mul_div_assoc, div_self d₁, mul_one]
  have r₂ : fwMidEnd p p.fwFrqMid = (p.fwIdMid, p.fwIqMid) := by
    simp [fwMidEnd]
  have r₃ : fwRamp p p.fwFrqStart = (0, 0) := by
    simp [fwRamp]
  have r₄ : fwMidEnd p p.fwFrqEnd = (p.fwIdEnd, p.fwIqEnd) := by
    simp only [fwMidEnd, mul_div_assoc, div_self d₂, mul_one, add_sub_cancel]
  refine ⟨?_, hramp, hmid, ?_, r₁, r₂, r₃, r₄, ?_, ?_, ?_⟩
  · intro f hf
    have c₁ : ¬ (f > p.fwFrqEnd) := by omega
    have c₂ : ¬ (f > p.fwFrqMid) := by omega
    have c₃ : ¬ (f > p.fwFrqStart) := by omega
    simp only [fwSchedule, c₁, c₂, c₃, if_false]
  · intro f hf
    simp only [fwSchedule, gt_iff_lt, hf, if_true]
  · have c₁ : ¬ (p.fwFrqStart > p.fwFrqEnd) := by omega
    have c₂ : ¬ (p.fwFrqStart > p.fwFrqMid) := by omega
    simp only [fwSchedule, c₁, c₂, if_false, gt_iff_lt, lt_irrefl]
  · rw [hramp _ h₁ (le_refl _), r₁]
  · rw [hmid _ h₂ (le_refl _), r₄]

theorem fwSchedule_piecewise_witness :
    mapperParams.fwFrqStart < mapperParams.fwFrqMid ∧
    mapperParams.fwFrqMid < mapperParams.fwFrqEnd ∧
    fwSchedule mapperParams mapperParams.fwFrqStart = (0, 0) ∧
    fwSchedule mapperParams mapperParams.fwFrqMid = (mapperParams.fwIdMid, mapperParams.fwIqMid) ∧
    fwSchedule mapperParams mapperParams.fwFrqEnd = (mapperParams.fwIdEnd, mapperParams.fwIqEnd) :=
  ⟨by decide, by decide,
    (fwSchedule_piecewise mapperParams (by decide) (by decide)).2.2.2.2.2.2.2.2⟩

/-! ### Fixed-point helpers -/

theorem FP_FROMFLT_of_eq (fd : Nat) (a : ℚ) (z : Int) (h : a * 2 ^ fd = (z : ℚ)) :
    FP_FROMFLT fd a = z := by
  unfold FP_FROMFLT
  rw [h, Rat.num_intCast, Rat.den_intCast]
  simp

theorem FP_FROMFLT_nonneg (fd : Nat) {a : ℚ} (h : 0 ≤ a) : 0 ≤ FP_FROMFLT fd a := by
  unfold FP_FROMFLT
  have h2 : (0 : ℚ) ≤ a * 2 ^ fd := by positivity
  exact Int.tdiv_nonneg (Rat.num_nonneg.mpr h2) (Int.ofNat_nonneg _)

theorem FP_FROMFLT_nonpos (fd : Nat) {a : ℚ} (h : a ≤ 0) : FP_FROMFLT fd a ≤ 0 := by
  unfold FP_FROMFLT
  have h2 : a * 2 ^ fd ≤ 0 := mul_nonpos_of_nonpos_of_nonneg h (by positivity)
  exact tdiv_nonpos_of_nonpos (Rat.num_nonpos.mpr h2) (Int.ofNat_nonneg _)

theorem FP_MUL_eq_ediv (fd : Nat) (a b : Int) : FP_MUL fd a b = (a * b) / 2 ^ fd := by
  unfold FP_MUL
  rw [Int.shiftRight_eq_div_pow]
  norm_cast

theorem FP_MUL_nonpos (fd : Nat) {a b : Int} (h : a * b ≤ 0) : FP_MUL fd a b ≤ 0 := by
  rw [FP_MUL_eq_ediv]
  have := Int.ediv_le_ediv (by positivity : (0 : Int) < 2 ^ fd) h
  simpa using this

theorem ABSf_nonneg (a : ℚ) : 0 ≤ ABSf a := by
  unfold ABSf
  split_ifs with h
  · linarith
  · linarith

theorem fwSchedule_fst_nonneg (p : TorqueParams) (f : Int) (hm : 0 ≤ p.fwIdMid)
    (he : 0 ≤ p.fwIdEnd) : 0 ≤ (fwSchedule p f).1 := by
  unfold fwSchedule
  split_ifs with c₁ c₂ c₃
  · exact he
  · have hf : (0 : ℚ) < ((f - p.fwFrqMid : Int) : ℚ) := by exact_mod_cast (by omega : 0 < f - p.fwFrqMid)
    have hd : (0 : ℚ) < ((p.fwFrqEnd - p.fwFrqMid : Int) : ℚ) := by
      exact_mod_cast (by omega : 0 < p.fwFrqEnd - p.fwFrqMid)
    have hle : ((f - p.fwFrqMid : Int) : ℚ) ≤ ((p.fwFrqEnd - p.fwFrqMid : Int) : ℚ) := by
      exact_mod_cast (by omega : f - p.fwFrqMid ≤ p.fwFrqEnd - p.fwFrqMid)
    show 0 ≤ p.fwIdMid + (p.fwIdEnd - p.fwIdMid) * ((f - p.fwFrqMid : Int) : ℚ)
        / ((p.fwFrqEnd - p.fwFrqMid : Int) : ℚ)
    rw [mul_div_assoc]
    have hr0 : 0 ≤ ((f - p.fwFrqMid : Int) : ℚ) / ((p.fwFrqEnd - p.fwFrqMid : Int) : ℚ) :=
      div_nonneg hf.le hd.le
    have hr1 : ((f - p.fwFrqMid : Int) : ℚ) / ((p.fwFrqEnd - p.fwFrqMid : Int) : ℚ) ≤ 1 :=
      (div_le_one hd).mpr hle
    nlinarith
  · have hf : (0 : ℚ) ≤ ((f - p.fwFrqStart : Int) : ℚ) := by
      exact_mod_cast (by omega : 0 ≤ f - p.fwFrqStart)
    have hd : (0 : ℚ) ≤ ((p.fwFrqMid - p.fwFrqStart : Int) : ℚ) := by
      exact_mod_cast (by omega : 0 ≤ p.fwFrqMid - p.fwFrqStart)
    exact div_nonneg (mul_nonneg hm hf) hd
  · exact le_refl _

/-- C16 (the code at the failing input): with `throtcur = 1`, `idiqsplit = 50`,
`overdrive = 100`, non-negative field-weakening currents, standstill (`frq = 0`, no field
weakening) and a regen torque request of -50 %, the unscaled currents are `id = -25`,
`iq = 25`, the ceiling `is = -50` is negative, scaling is applied with the negative factor
`norm = -45` (5 fraction digits), and the value handed to `dController.SetRef` is
`FP_MUL(FP(id), norm) = +1125`, a positive d-axis reference. -/
theorem setTorquePercent_dref_regen :
    0 < mapperParams.throtcur ∧ 0 ≤ mapperParams.idiqsplit ∧ mapperParams.idiqsplit ≤ 100 ∧
    0 ≤ mapperParams.overdrive ∧ 0 ≤ mapperParams.fwIdMid ∧ 0 ≤ mapperParams.fwIdEnd ∧
    SetTorquePercent 5 (fp_sqrt 5) SIGN mapperParams 0 0 (-50) =
      some { frqFiltered := 0, ifw := 0, ifwq := 0, id := -25, iq := 25, is := -50
             iAbs := 1131, norm := -45, idReq := 1125, iqRef := -1125, idRef := 1125 } := by
  refine ⟨by decide, by decide, by decide, by decide, by decide, by decide, ?_⟩
  have hI : IIRFILTER 0 0 mapperParams.fwfrqflt = 0 := by decide
  have hfw : fwSchedule mapperParams 0 = (0, 0) := by simp [fwSchedule, mapperParams]
  have ht : mapperParams.throtcur = 1 := rfl
  have hsp : mapperParams.idiqsplit = 50 := rfl
  have hod : mapperParams.overdrive = 100 := rfl
  have e1 : FP_FROMFLT 5 625 = 20000 := FP_FROMFLT_of_eq 5 _ _ (by norm_num)
  have e2 : FP_FROMFLT 5 (-50) = -1600 := FP_FROMFLT_of_eq 5 _ _ (by norm_num)
  have e3 : FP_FROMFLT 5 (-25) = -800 := FP_FROMFLT_of_eq 5 _ _ (by norm_num)
  have e4 : FP_FROMFLT 5 25 = 800 := FP_FROMFLT_of_eq 5 _ _ (by norm_num)
  have hs : fp_sqrt 5 40000 = 1131 := by decide
  have hd : Int.tdiv 51200 1131 = 45 := by decide
  have hm : FP_MUL 5 (-800) (-45) = 1125 := by decide
  have hq : FP_MUL 5 800 (-45) = -1125 := by decide
  have hsg : SIGN (-50) = -1 := by simp [SIGN]
  simp only [SetTorquePercent, hI, hfw, ht, hsp, hod]
  norm_num [ABSf, MAXf, MINf, e1, e2, e3, e4, hs, FP_TOFLOAT, FP_DIV, cdiv, hd, hm, hq, hsg, ABS]

/-- The scaling factor is non-negative whenever the ceiling `is` is. -/
theorem norm_nonneg_of_is_nonneg (fd : Nat) (iAbs norm : Int) (is : ℚ) (his : 0 ≤ is)
    (h : (if FP_TOFLOAT fd iAbs > is then FP_DIV fd (FP_FROMFLT fd is) iAbs
            else some (FP_FROMFLT fd 1)) = some norm) : 0 ≤ norm := by
  split_ifs at h with hc
  · have hpos : (0 : ℚ) < (iAbs : ℚ) / 2 ^ fd := lt_of_le_of_lt his hc
    have hi : 0 < iAbs := by
      by_contra hle
      have : (iAbs : ℚ) ≤ 0 := by exact_mod_cast (not_lt.mp hle)
      have : (iAbs : ℚ) / 2 ^ fd ≤ 0 := div_nonpos_of_nonpos_of_nonneg this (by positivity)
      linarith
    unfold FP_DIV at h
    rw [cdiv_of_ne (by omega)] at h
    injection h with h
    rw [← h]
    exact Int.tdiv_nonneg (mul_nonneg (FP_FROMFLT_nonneg fd his) (by positivity)) hi.le
  · injection h with h
    rw [← h]
    exact FP_FROMFLT_nonneg fd (by norm_num)

/-- For a traction request (`torquePercent ≥ 0`) with `throtcur > 0`, `overdrive ≥ 0` and
non-negative field-weakening d-currents, the d-axis reference is never positive. -/
theorem setTorquePercent_dref_traction (fd : Nat) (sqrt : Int → Int) (sign : ℚ → Int)
    (p : TorqueParams) (frq frqFiltered : Int) (torquePercent : ℚ) (out : TorqueRefs)
    (htp : 0 ≤ torquePercent) (ht : 0 < p.throtcur) (hod : 0 ≤ p.overdrive)
    (hm : 0 ≤ p.fwIdMid) (he : 0 ≤ p.fwIdEnd)
    (h : SetTorquePercent fd sqrt sign p frq frqFiltered torquePercent = some out) :
    out.idRef ≤ 0 := by
  simp only [SetTorquePercent, Option.map_eq_some'] at h
  obtain ⟨norm, hn, rfl⟩ := h
  have hfw := fwSchedule_fst_nonneg p (IIRFILTER frqFiltered frq p.fwfrqflt) hm he
  have his : 0 ≤ MINf (p.throtcur * torquePercent +
      (ABSf (fwSchedule p (IIRFILTER frqFiltered frq p.fwfrqflt)).1 +
        ABSf (fwSchedule p (IIRFILTER frqFiltered frq p.fwfrqflt)).2))
      (p.overdrive * p.throtcur) := by
    have h1 := ABSf_nonneg (fwSchedule p (IIRFILTER frqFiltered frq p.fwfrqflt)).1
    have h2 := ABSf_nonneg (fwSchedule p (IIRFILTER frqFiltered frq p.fwfrqflt)).2
    have h3 : 0 ≤ p.throtcur * torquePercent := mul_nonneg ht.le htp
    have h4 : (0 : ℚ) ≤ p.overdrive * p.throtcur :=
      mul_nonneg (by exact_mod_cast hod) ht.le
    unfold MINf
    split_ifs <;> linarith
  have hnorm := norm_nonneg_of_is_nonneg fd _ norm _ his hn
  have hid : MAXf (-ABSf (p.idiqsplit * (p.throtcur * torquePercent) / 100) -
      (fwSchedule p (IIRFILTER frqFiltered frq p.fwfrqflt)).1) (-100 * p.throtcur) ≤ 0 := by
    have h1 := ABSf_nonneg (p.idiqsplit * (p.throtcur * torquePercent) / 100)
    unfold MAXf
    split_ifs <;> linarith
  exact FP_MUL_nonpos fd (mul_nonpos_of_nonpos_of_nonneg (FP_FROMFLT_nonpos fd hid) hnorm)

theorem ABSf_of_nonneg {a : ℚ} (h : 0 ≤ a) : ABSf a = a := by
  unfold ABSf
  rw [if_neg (not_lt.mpr h)]

end PwmGeneration
